import Mathlib

/-!
# Verification of the `it5001` order-matching engine

A shallow embedding of the Python sources (`order.py`, `order_book.py`,
`order_factory.py`, `matching_engine.py`) into Lean 4, together with proofs
and refutations of the specification's claims.

Conventions of the embedding:
* Python `int` quantities are `Nat` (all code paths guard subtractions so no
  truncation occurs on the guarded branches), prices are `Int`.
* `total_sale` is accumulated in Python as a float initialised to `0.0`; every
  summand is a product of integers, so the value is an exact integer for all
  magnitudes below 2^53; we model it as `Int`.
* The two priority queues are Python lists manipulated by `heapq`; we embed the
  pure-Python `heapq` algorithms (`_siftdown`, `_siftup`, `heappush`,
  `heappop`) verbatim over `List`.
* Python code that raises (`AttributeError`, `KeyError`) is modelled with
  `Except String`.
-/

namespace It5001

/-- One order, mirroring `Order.__init__` in `order.py`
(`action`, `uid`, `type`, `side`, `quantity`, `price`). -/
structure Order where
  action : String
  uid : String
  type : String
  side : String
  quantity : Nat
  price : Int
deriving Repr, DecidableEq

/-- Placeholder order used as the (never-read) default of list lookups. -/
def dummyOrder : Order := ⟨"", "", "", "", 0, 0⟩

/-- A heap entry as stored by `order_book.py`: the tuple `(key, order)` where
the key is `order.price` on the sell heap and `-order.price` on the buy heap. -/
abbrev Entry := Int × Order

/-- The `MANDATED_FULL_EXECUTION_ORDERS` set from `order.py` line 5. -/
def MANDATED_FULL_EXECUTION_ORDERS : List String := ["LO", "FOK"]

/-- Python's `<` on heap entries: tuple comparison `(a, o1) < (b, o2)` is
`a < b or (a == b and o1 < o2)`, and `Order.__lt__` compares prices. -/
def entryLt (x y : Entry) : Bool :=
  decide (x.1 < y.1) || (decide (x.1 = y.1) && decide (x.2.price < y.2.price))

/-! ## The `heapq` algorithms (CPython `heapq.py`, pure-Python versions) -/

/-- The loop of CPython's `heapq._siftdown(heap, startpos, pos)` with
`newitem = heap[pos]` saved at entry: while `pos > startpos`, compare `newitem`
with the parent, move the parent down and ascend when `newitem < parent`,
otherwise store `newitem` at `pos`. -/
def siftdownLoop (heap : List Entry) (startpos pos : Nat) (newitem : Entry) :
    List Entry :=
  if _h : startpos < pos then
    let parentpos := (pos - 1) / 2
    let parent := heap.getD parentpos (0, dummyOrder)
    if entryLt newitem parent then
      siftdownLoop (heap.set pos parent) startpos parentpos newitem
    else
      heap.set pos newitem
  else
    heap.set pos newitem
termination_by pos
decreasing_by
  omega

/-- CPython `heapq._siftdown(heap, startpos, pos)`. -/
def siftdown (heap : List Entry) (startpos pos : Nat) : List Entry :=
  siftdownLoop heap startpos pos (heap.getD pos (0, dummyOrder))

/-- CPython `heapq.heappush(heap, item)`: append then sift down from the new
last position. -/
def heappush (heap : List Entry) (item : Entry) : List Entry :=
  siftdown (heap ++ [item]) 0 heap.length

/-- The loop of CPython's `heapq._siftup(heap, pos)` with
`newitem = heap[pos]` saved at entry: bubble the hole at `pos` down to a leaf,
always moving the smaller child up, then place `newitem` there and restore with
`_siftdown(heap, startpos, pos)`. -/
def siftupLoop (heap : List Entry) (startpos pos : Nat) (newitem : Entry) :
    List Entry :=
  let endpos := heap.length
  let childpos := 2 * pos + 1
  if _h : childpos < endpos then
    let rightpos := childpos + 1
    let childpos :=
      if rightpos < endpos &&
          !(entryLt (heap.getD childpos (0, dummyOrder))
              (heap.getD rightpos (0, dummyOrder))) then
        rightpos
      else childpos
    siftupLoop (heap.set pos (heap.getD childpos (0, dummyOrder)))
      startpos childpos newitem
  else
    siftdownLoop (heap.set pos newitem) startpos pos newitem
termination_by heap.length - pos
decreasing_by
  simp only [List.length_set]
  split <;> omega

/-- CPython `heapq._siftup(heap, pos)` (called with `startpos = pos`). -/
def siftup (heap : List Entry) (pos : Nat) : List Entry :=
  siftupLoop heap pos pos (heap.getD pos (0, dummyOrder))

/-- CPython `heapq.heappop(heap)`: pop the last element; if the heap is still
non-empty, save the root, move the last element to the root and sift up.
(Popping an empty heap raises in Python; all call sites guard non-emptiness,
and we return the default entry there.) -/
def heappop (heap : List Entry) : Entry × List Entry :=
  let lastelt := heap.getLast?.getD (0, dummyOrder)
  let rest := heap.dropLast
  if rest.isEmpty then
    (lastelt, [])
  else
    (rest.getD 0 (0, dummyOrder), siftup (rest.set 0 lastelt) 0)

/-! ## `order_book.py` -/

/-- The order book: buy heap keyed by `-price` (max-heap), sell heap keyed by
`price` (min-heap), as in `OrderBook.__init__`. -/
structure OrderBook where
  buy : List Entry
  sell : List Entry
deriving Repr, DecidableEq

/-- `OrderBook.push_to_buy_queue`: `heappush(self.buy, (-order.price, order))`. -/
def OrderBook.push_to_buy_queue (b : OrderBook) (o : Order) : OrderBook :=
  { b with buy := heappush b.buy (-o.price, o) }

/-- `OrderBook.push_to_sell_queue`: `heappush(self.sell, (order.price, order))`. -/
def OrderBook.push_to_sell_queue (b : OrderBook) (o : Order) : OrderBook :=
  { b with sell := heappush b.sell (o.price, o) }

/-- `OrderBook.pop_buy`: `heappop(self.buy)[1]`. -/
def OrderBook.pop_buy (b : OrderBook) : Order × OrderBook :=
  let p := heappop b.buy
  (p.1.2, { b with buy := p.2 })

/-- `OrderBook.pop_sell`: `heappop(self.sell)[1]`. -/
def OrderBook.pop_sell (b : OrderBook) : Order × OrderBook :=
  let p := heappop b.sell
  (p.1.2, { b with sell := p.2 })

/-- `OrderBook.cancel_order` in `order_book.py` iterates
`for idx, order in enumerate(self.sell)` — but the elements of `self.sell` are
the `(price, order)` tuples pushed by `push_to_sell_queue`, so the very first
loop iteration evaluates `order.uid` on a tuple and raises
`AttributeError: 'tuple' object has no attribute 'uid'`; likewise for the buy
loop.  Hence: with a non-empty sell queue the first iteration raises; with an
empty sell queue and a non-empty buy queue the buy loop's first iteration
raises; with both queues empty both loops run zero iterations and the method
falls through, returning `None` (no NotFound signal). -/
def OrderBook.cancel_order (b : OrderBook) (_order_id : String) :
    Except String OrderBook :=
  match b.sell with
  | _ :: _ => .error "AttributeError: 'tuple' object has no attribute 'uid'"
  | [] =>
    match b.buy with
    | _ :: _ => .error "AttributeError: 'tuple' object has no attribute 'uid'"
    | [] => .ok b

/-! ## Length lemmas (needed for termination of the matching loops) -/

theorem siftdownLoop_length :
    ∀ (p : Nat) (heap : List Entry) (s : Nat) (x : Entry),
      (siftdownLoop heap s p x).length = heap.length := by
  intro p
  induction p using Nat.strong_induction_on with
  | _ p ih =>
    intro heap s x
    rw [siftdownLoop]
    dsimp only
    split
    · split
      · rw [ih ((p - 1) / 2) (by omega)]
        simp
      · simp
    · simp

theorem siftupLoop_length :
    ∀ (n : Nat) (heap : List Entry) (s p : Nat) (x : Entry),
      heap.length ≤ p + n → (siftupLoop heap s p x).length = heap.length := by
  intro n
  induction n with
  | zero =>
    intro heap s p x hn
    rw [siftupLoop]
    dsimp only
    rw [dif_neg (by omega)]
    rw [siftdownLoop_length]
    simp
  | succ n ih =>
    intro heap s p x hn
    rw [siftupLoop]
    dsimp only
    split
    · rw [ih]
      · simp
      · simp only [List.length_set]
        split <;> omega
    · rw [siftdownLoop_length]
      simp

theorem siftup_length (heap : List Entry) (p : Nat) :
    (siftup heap p).length = heap.length := by
  unfold siftup
  exact siftupLoop_length heap.length heap p p _ (by omega)

theorem heappush_length (heap : List Entry) (x : Entry) :
    (heappush heap x).length = heap.length + 1 := by
  unfold heappush siftdown
  rw [siftdownLoop_length]
  simp

theorem heappop_length (heap : List Entry) (h : heap ≠ []) :
    (heappop heap).2.length + 1 = heap.length := by
  unfold heappop
  dsimp only
  split
  · simp only [List.isEmpty_iff] at *
    have : heap.length ≠ 0 := by simpa using h
    have := congrArg List.length ‹heap.dropLast = []›
    simp only [List.length_dropLast, List.length_nil] at this
    simpa using by omega
  · rw [siftup_length]
    simp only [List.length_set, List.length_dropLast]
    have : heap.length ≠ 0 := by simpa using h
    omega

/-! ## The matching loops of `order.py`

All five order classes share one consume loop against the opposing heap; they
differ only in the price gate and in what the gate does on failure.  We embed
the three variants, parameterised by the opposing heap's key function `pk`
(`fun o => o.price` when consuming the sell heap, `fun o => -o.price` when
consuming the buy heap) and the gate test `gate`
(`top.price > self.price` for an incoming buy, `top.price < self.price` for an
incoming sell). -/

/-- Lexicographic descent helper for the loop termination measures. -/
theorem lex_helper {a b a' b' : Nat} (h : a' < a ∨ (a' = a ∧ b' < b)) :
    Prod.Lex (· < ·) (· < ·) (a', b') (a, b) := by
  rcases h with h | ⟨rfl, h⟩
  · exact Prod.Lex.left _ _ h
  · exact Prod.Lex.right _ h

/-- Result of the history-keeping loop (`LimitOrder`/`FOKOrder`). -/
structure LoopResA where
  heap : List Entry
  remaining : Nat
  total_sale : Int
  history : List Order
  fullex : List Order
deriving Repr, DecidableEq

/-- Result of the history-free loops (`MarketOrder`/`IOCOrder`/`GTCOrder`). -/
structure LoopResB where
  heap : List Entry
  remaining : Nat
  total_sale : Int
  fullex : List Order
deriving Repr, DecidableEq

/-- The consume loop of `LimitOrder._execute_buy_order` (order.py lines
110–133), `LimitOrder._execute_sell_order` (167–190), and the identical loops
of `FOKOrder` (490–513, 545–568): on a failed price gate the popped order is
appended to the history list and the loop breaks; a mandated-full-execution
order larger than the remainder is set aside into `fullex`; otherwise the
order is consumed, the remainder being updated by
`remaining -= min(remaining, top.quantity)` with `top.quantity` read *after*
the in-place decrement of the partial-consumption branch, exactly as in the
source. -/
def consumeLoopA (pk : Order → Int) (gate : Order → Bool)
    (heap : List Entry) (remaining : Nat) (total : Int)
    (hist fullex : List Order) : LoopResA :=
  if _hg : heap.isEmpty = false ∧ 0 < remaining then
    let p := heappop heap
    let top := p.1.2
    if gate top then
      ⟨p.2, remaining, total, hist ++ [top], fullex⟩
    else if top.type ∈ MANDATED_FULL_EXECUTION_ORDERS ∧ remaining < top.quantity then
      consumeLoopA pk gate p.2 remaining total hist (fullex ++ [top])
    else if remaining < top.quantity then
      let top' := { top with quantity := top.quantity - remaining }
      consumeLoopA pk gate (heappush p.2 (pk top', top'))
        (remaining - min remaining top'.quantity)
        (total + (remaining : Int) * top.price) (hist ++ [top']) fullex
    else
      consumeLoopA pk gate p.2 (remaining - min remaining top.quantity)
        (total + (top.quantity : Int) * top.price) (hist ++ [top]) fullex
  else ⟨heap, remaining, total, hist, fullex⟩
termination_by (remaining, heap.length)
decreasing_by
  all_goals
    rcases _hg with ⟨h1, h2⟩
  all_goals
    have hne : heap ≠ [] := by
      intro hh
      rw [hh] at h1
      simp at h1
  all_goals
    have hl := heappop_length heap hne
  all_goals
    try simp only [heappush_length]
  all_goals
    apply lex_helper
  all_goals
    simp only [show (heappop heap).1.2 = top from rfl] at *
  all_goals
    try simp only [inf_eq_min, Nat.min_def, true_and]
  all_goals
    first
      | omega
      | (split_ifs <;> omega)

/-- The consume loop of `MarketOrder._execute_buy_order` (order.py lines
252–271) and `_execute_sell_order` (294–313): no price gate, no history. -/
def consumeLoopB (pk : Order → Int)
    (heap : List Entry) (remaining : Nat) (total : Int)
    (fullex : List Order) : LoopResB :=
  if _hg : heap.isEmpty = false ∧ 0 < remaining then
    let p := heappop heap
    let top := p.1.2
    if top.type ∈ MANDATED_FULL_EXECUTION_ORDERS ∧ remaining < top.quantity then
      consumeLoopB pk p.2 remaining total (fullex ++ [top])
    else if remaining < top.quantity then
      let top' := { top with quantity := top.quantity - remaining }
      consumeLoopB pk (heappush p.2 (pk top', top'))
        (remaining - min remaining top'.quantity)
        (total + (remaining : Int) * top.price) fullex
    else
      consumeLoopB pk p.2 (remaining - min remaining top.quantity)
        (total + (top.quantity : Int) * top.price) fullex
  else ⟨heap, remaining, total, fullex⟩
termination_by (remaining, heap.length)
decreasing_by
  all_goals
    rcases _hg with ⟨h1, h2⟩
  all_goals
    have hne : heap ≠ [] := by
      intro hh
      rw [hh] at h1
      simp at h1
  all_goals
    have hl := heappop_length heap hne
  all_goals
    try simp only [heappush_length]
  all_goals
    apply lex_helper
  all_goals
    simp only [show (heappop heap).1.2 = top from rfl] at *
  all_goals
    try simp only [inf_eq_min, Nat.min_def, true_and]
  all_goals
    first
      | omega
      | (split_ifs <;> omega)

/-- The consume loop of `IOCOrder` (order.py lines 366–388, 411–433) and
`GTCOrder` (630–652, 681–703): on a failed price gate the popped order is
pushed straight back onto its heap and the loop breaks; no history. -/
def consumeLoopC (pk : Order → Int) (gate : Order → Bool)
    (heap : List Entry) (remaining : Nat) (total : Int)
    (fullex : List Order) : LoopResB :=
  if _hg : heap.isEmpty = false ∧ 0 < remaining then
    let p := heappop heap
    let top := p.1.2
    if gate top then
      ⟨heappush p.2 (pk top, top), remaining, total, fullex⟩
    else if top.type ∈ MANDATED_FULL_EXECUTION_ORDERS ∧ remaining < top.quantity then
      consumeLoopC pk gate p.2 remaining total (fullex ++ [top])
    else if remaining < top.quantity then
      let top' := { top with quantity := top.quantity - remaining }
      consumeLoopC pk gate (heappush p.2 (pk top', top'))
        (remaining - min remaining top'.quantity)
        (total + (remaining : Int) * top.price) fullex
    else
      consumeLoopC pk gate p.2 (remaining - min remaining top.quantity)
        (total + (top.quantity : Int) * top.price) fullex
  else ⟨heap, remaining, total, fullex⟩
termination_by (remaining, heap.length)
decreasing_by
  all_goals
    rcases _hg with ⟨h1, h2⟩
  all_goals
    have hne : heap ≠ [] := by
      intro hh
      rw [hh] at h1
      simp at h1
  all_goals
    have hl := heappop_length heap hne
  all_goals
    try simp only [heappush_length]
  all_goals
    apply lex_helper
  all_goals
    simp only [show (heappop heap).1.2 = top from rfl] at *
  all_goals
    try simp only [inf_eq_min, Nat.min_def, true_and]
  all_goals
    first
      | omega
      | (split_ifs <;> omega)

/-- `for order in orders: order_book.push_to_sell_queue(order)`. -/
def pushAllSell (heap : List Entry) (orders : List Order) : List Entry :=
  orders.foldl (fun h ord => heappush h (ord.price, ord)) heap

/-- `for order in orders: order_book.push_to_buy_queue(order)`. -/
def pushAllBuy (heap : List Entry) (orders : List Order) : List Entry :=
  orders.foldl (fun h ord => heappush h (-ord.price, ord)) heap

/-! ## The five order classes of `order.py` -/

/-- `LimitOrder._execute_buy_order` (order.py lines 93–148): run the consume
loop against the sell heap; if any quantity remains, restore the consumed
orders in reverse order, rest `self` (original quantity) on the buy side and
reset the total to 0; finally restore the set-aside mandated orders. -/
def LimitOrder.execute_buy (o : Order) (bk : OrderBook) : Int × OrderBook :=
  let r := consumeLoopA (fun x => x.price) (fun t => decide (o.price < t.price))
    bk.sell o.quantity 0 [] []
  if 0 < r.remaining then
    (0, { buy := heappush bk.buy (-o.price, o),
          sell := pushAllSell (pushAllSell r.heap r.history.reverse) r.fullex })
  else
    (r.total_sale, { buy := bk.buy, sell := pushAllSell r.heap r.fullex })

/-- `LimitOrder._execute_sell_order` (order.py lines 150–205). -/
def LimitOrder.execute_sell (o : Order) (bk : OrderBook) : Int × OrderBook :=
  let r := consumeLoopA (fun x => -x.price) (fun t => decide (t.price < o.price))
    bk.buy o.quantity 0 [] []
  if 0 < r.remaining then
    (0, { buy := pushAllBuy (pushAllBuy r.heap r.history.reverse) r.fullex,
          sell := heappush bk.sell (o.price, o) })
  else
    (r.total_sale, { buy := pushAllBuy r.heap r.fullex, sell := bk.sell })

/-- `LimitOrder.execute` (order.py lines 80–91): dispatch on `self.side`;
any other side falls through and Python returns `None`. -/
def LimitOrder.execute (o : Order) (bk : OrderBook) : Option (Int × OrderBook) :=
  if o.side = "B" then some (LimitOrder.execute_buy o bk)
  else if o.side = "S" then some (LimitOrder.execute_sell o bk)
  else none

/-- `MarketOrder._execute_buy_order` (order.py lines 237–277): ungated loop,
keep all consumption, discard the unmatched remainder, restore set-asides. -/
def MarketOrder.execute_buy (o : Order) (bk : OrderBook) : Int × OrderBook :=
  let r := consumeLoopB (fun x => x.price) bk.sell o.quantity 0 []
  (r.total_sale, { buy := bk.buy, sell := pushAllSell r.heap r.fullex })

/-- `MarketOrder._execute_sell_order` (order.py lines 279–319). -/
def MarketOrder.execute_sell (o : Order) (bk : OrderBook) : Int × OrderBook :=
  let r := consumeLoopB (fun x => -x.price) bk.buy o.quantity 0 []
  (r.total_sale, { buy := pushAllBuy r.heap r.fullex, sell := bk.sell })

/-- `MarketOrder.execute` (order.py lines 224–235). -/
def MarketOrder.execute (o : Order) (bk : OrderBook) : Option (Int × OrderBook) :=
  if o.side = "B" then some (MarketOrder.execute_buy o bk)
  else if o.side = "S" then some (MarketOrder.execute_sell o bk)
  else none

/-- `IOCOrder._execute_buy_order` (order.py lines 351–394): gated loop that
pushes the gated order straight back, keep all consumption, discard the
unmatched remainder, restore set-asides. -/
def IOCOrder.execute_buy (o : Order) (bk : OrderBook) : Int × OrderBook :=
  let r := consumeLoopC (fun x => x.price) (fun t => decide (o.price < t.price))
    bk.sell o.quantity 0 []
  (r.total_sale, { buy := bk.buy, sell := pushAllSell r.heap r.fullex })

/-- `IOCOrder._execute_sell_order` (order.py lines 396–439). -/
def IOCOrder.execute_sell (o : Order) (bk : OrderBook) : Int × OrderBook :=
  let r := consumeLoopC (fun x => -x.price) (fun t => decide (t.price < o.price))
    bk.buy o.quantity 0 []
  (r.total_sale, { buy := pushAllBuy r.heap r.fullex, sell := bk.sell })

/-- `IOCOrder.execute` (order.py lines 338–349). -/
def IOCOrder.execute (o : Order) (bk : OrderBook) : Option (Int × OrderBook) :=
  if o.side = "B" then some (IOCOrder.execute_buy o bk)
  else if o.side = "S" then some (IOCOrder.execute_sell o bk)
  else none

/-- `FOKOrder._execute_buy_order` (order.py lines 473–526): same loop as
`LimitOrder`; on remaining quantity restore the consumed orders in reverse
order and reset the total, but never rest `self`; restore set-asides. -/
def FOKOrder.execute_buy (o : Order) (bk : OrderBook) : Int × OrderBook :=
  let r := consumeLoopA (fun x => x.price) (fun t => decide (o.price < t.price))
    bk.sell o.quantity 0 [] []
  if 0 < r.remaining then
    (0, { buy := bk.buy,
          sell := pushAllSell (pushAllSell r.heap r.history.reverse) r.fullex })
  else
    (r.total_sale, { buy := bk.buy, sell := pushAllSell r.heap r.fullex })

/-- `FOKOrder._execute_sell_order` (order.py lines 528–581). -/
def FOKOrder.execute_sell (o : Order) (bk : OrderBook) : Int × OrderBook :=
  let r := consumeLoopA (fun x => -x.price) (fun t => decide (t.price < o.price))
    bk.buy o.quantity 0 [] []
  if 0 < r.remaining then
    (0, { buy := pushAllBuy (pushAllBuy r.heap r.history.reverse) r.fullex,
          sell := bk.sell })
  else
    (r.total_sale, { buy := pushAllBuy r.heap r.fullex, sell := bk.sell })

/-- `FOKOrder.execute` (order.py lines 460–471). -/
def FOKOrder.execute (o : Order) (bk : OrderBook) : Option (Int × OrderBook) :=
  if o.side = "B" then some (FOKOrder.execute_buy o bk)
  else if o.side = "S" then some (FOKOrder.execute_sell o bk)
  else none

/-- `GTCOrder._execute_buy_order` (order.py lines 615–664): same loop as
`IOCOrder`; on remaining quantity set `self.quantity = remaining` and rest
`self` on the buy side (before restoring the set-asides, which go to the
opposing sell side). -/
def GTCOrder.execute_buy (o : Order) (bk : OrderBook) : Int × OrderBook :=
  let r := consumeLoopC (fun x => x.price) (fun t => decide (o.price < t.price))
    bk.sell o.quantity 0 []
  if 0 < r.remaining then
    (r.total_sale,
      { buy := heappush bk.buy (-o.price, { o with quantity := r.remaining }),
        sell := pushAllSell r.heap r.fullex })
  else
    (r.total_sale, { buy := bk.buy, sell := pushAllSell r.heap r.fullex })

/-- `GTCOrder._execute_sell_order` (order.py lines 666–715). -/
def GTCOrder.execute_sell (o : Order) (bk : OrderBook) : Int × OrderBook :=
  let r := consumeLoopC (fun x => -x.price) (fun t => decide (t.price < o.price))
    bk.buy o.quantity 0 []
  if 0 < r.remaining then
    (r.total_sale,
      { buy := pushAllBuy r.heap r.fullex,
        sell := heappush bk.sell (o.price, { o with quantity := r.remaining }) })
  else
    (r.total_sale, { buy := pushAllBuy r.heap r.fullex, sell := bk.sell })

/-- `GTCOrder.execute` (order.py lines 602–613). -/
def GTCOrder.execute (o : Order) (bk : OrderBook) : Option (Int × OrderBook) :=
  if o.side = "B" then some (GTCOrder.execute_buy o bk)
  else if o.side = "S" then some (GTCOrder.execute_sell o bk)
  else none

/-! ## `order_factory.py` and `matching_engine.py` -/

/-- The parsed command dictionary built by `app.parse_order`: a
`defaultdict(lambda: None)`, so unset keys are `None` (here `Option.none`).
For a `CXL` line only `action` and `id` are set; for a `SUB` line `type`,
`side`, `id`, `quantity` and (when present) `price` are set. -/
structure OrderDict where
  action : String
  id : String
  type : Option String
  side : Option String
  quantity : Option Nat
  price : Option Int
deriving Repr, DecidableEq

/-- `OrderFactory.submit_orders = {"LO": LimitOrder}` (order_factory.py lines
19–21): the dispatch table registers only the Limit order class. -/
def OrderFactory.submit_orders : List String := ["LO"]

/-- `OrderFactory.create_order(type, order_dict)` (order_factory.py lines
23–42): `cls.submit_orders[type]` raises `KeyError` for every key other than
`"LO"` — in particular for the other four order kinds and for `None` (the
`type` of every CXL dict).  On `"LO"` it builds
`LimitOrder(action, id, type, side, quantity, price)`. -/
def OrderFactory.create_order (type : Option String) (d : OrderDict) :
    Except String Order :=
  if type = some "LO" then
    .ok ⟨d.action, d.id, "LO", d.side.getD "", d.quantity.getD 0, d.price.getD 0⟩
  else
    .error "KeyError"

/-- `MatchingEngine.process_order` (matching_engine.py lines 50–64): build the
order via the factory (which raises `KeyError` unless `type == "LO"`), then
dispatch on `action`.  A `"SUB"` action executes the (necessarily Limit)
order; a `"CXL"` action would evaluate `order.id` — an attribute no `Order`
defines (the field is `uid`) — and raise `AttributeError`; any other action
falls through returning `None`. -/
def MatchingEngine.process_order (bk : OrderBook) (d : OrderDict) :
    Except String (Option Int × OrderBook) :=
  match OrderFactory.create_order d.type d with
  | .error e => .error e
  | .ok order =>
    if order.action = "SUB" then
      match LimitOrder.execute order bk with
      | some (t, bk') => .ok (some t, bk')
      | none => .ok (none, bk)
    else if order.action = "CXL" then
      .error "AttributeError: 'LimitOrder' object has no attribute 'id'"
    else
      .ok (none, bk)

/-! ## Step lemmas for the heap operations on small heaps -/

theorem heappush_nil (e : Entry) : heappush [] e = [e] := by
  have h1 : heappush [] e = siftdownLoop [e] 0 0 e := rfl
  rw [h1, siftdownLoop]
  norm_num

theorem heappush_one (a e : Entry) :
    heappush [a] e = if entryLt e a then [e, a] else [a, e] := by
  have h1 : heappush [a] e = siftdownLoop [a, e] 0 1 e := rfl
  rw [h1, siftdownLoop]
  dsimp only
  rw [dif_pos (by omega)]
  norm_num [List.getD]
  split
  · rw [siftdownLoop]
    norm_num
  · rfl

theorem heappush_two (a b e : Entry) :
    heappush [a, b] e = if entryLt e a then [e, b, a] else [a, b, e] := by
  have h1 : heappush [a, b] e = siftdownLoop [a, b, e] 0 2 e := rfl
  rw [h1, siftdownLoop]
  dsimp only
  rw [dif_pos (by omega)]
  norm_num [List.getD]
  split
  · rw [siftdownLoop]
    norm_num
  · rfl

theorem heappop_one (a : Entry) : heappop [a] = (a, []) := rfl

theorem heappop_two (a b : Entry) : heappop [a, b] = (a, [b]) := by
  have h1 : heappop [a, b] = (a, siftupLoop [b] 0 0 b) := rfl
  rw [h1, siftupLoop]
  dsimp only
  rw [dif_neg (by norm_num)]
  rw [siftdownLoop]
  norm_num

theorem heappop_three (a b c : Entry) :
    heappop [a, b, c] = (a, if entryLt c b then [c, b] else [b, c]) := by
  have h1 : heappop [a, b, c] = (a, siftupLoop [c, b] 0 0 c) := rfl
  rw [h1, siftupLoop]
  dsimp only
  rw [dif_pos (by norm_num)]
  norm_num [List.getD]
  rw [siftupLoop]
  dsimp only
  rw [dif_neg (by norm_num)]
  rw [siftdownLoop]
  dsimp only
  rw [dif_pos (by omega)]
  norm_num [List.getD]
  split
  · rw [siftdownLoop]
    norm_num
  · rfl

/-! ## Branch lemmas for the consume loops -/

theorem consumeLoopA_stop (pk : Order → Int) (gate : Order → Bool)
    (heap : List Entry) (remaining : Nat) (total : Int) (hist fullex : List Order)
    (h : heap.isEmpty = true ∨ remaining = 0) :
    consumeLoopA pk gate heap remaining total hist fullex =
      ⟨heap, remaining, total, hist, fullex⟩ := by
  rw [consumeLoopA]
  rw [dif_neg (by rcases h with h | h <;> simp [h])]

theorem consumeLoopA_gate (pk : Order → Int) (gate : Order → Bool)
    (heap : List Entry) (remaining : Nat) (total : Int) (hist fullex : List Order)
    (hne : heap.isEmpty = false) (hrem : 0 < remaining)
    (hg : gate (heappop heap).1.2 = true) :
    consumeLoopA pk gate heap remaining total hist fullex =
      ⟨(heappop heap).2, remaining, total, hist ++ [(heappop heap).1.2], fullex⟩ := by
  rw [consumeLoopA]
  rw [dif_pos ⟨hne, hrem⟩]
  dsimp only
  rw [if_pos hg]

theorem consumeLoopA_mandated (pk : Order → Int) (gate : Order → Bool)
    (heap : List Entry) (remaining : Nat) (total : Int) (hist fullex : List Order)
    (hne : heap.isEmpty = false) (hrem : 0 < remaining)
    (hg : gate (heappop heap).1.2 = false)
    (hm : (heappop heap).1.2.type ∈ MANDATED_FULL_EXECUTION_ORDERS)
    (hq : remaining < (heappop heap).1.2.quantity) :
    consumeLoopA pk gate heap remaining total hist fullex =
      consumeLoopA pk gate (heappop heap).2 remaining total hist
        (fullex ++ [(heappop heap).1.2]) := by
  rw [consumeLoopA]
  rw [dif_pos ⟨hne, hrem⟩]
  dsimp only
  rw [if_neg (by simp [hg]), if_pos ⟨hm, hq⟩]

theorem consumeLoopA_residue (pk : Order → Int) (gate : Order → Bool)
    (heap : List Entry) (remaining : Nat) (total : Int) (hist fullex : List Order)
    (hne : heap.isEmpty = false) (hrem : 0 < remaining)
    (hg : gate (heappop heap).1.2 = false)
    (hm : (heappop heap).1.2.type ∉ MANDATED_FULL_EXECUTION_ORDERS)
    (hq : remaining < (heappop heap).1.2.quantity) :
    consumeLoopA pk gate heap remaining total hist fullex =
      consumeLoopA pk gate
        (heappush (heappop heap).2
          (pk { (heappop heap).1.2 with
                  quantity := (heappop heap).1.2.quantity - remaining },
            { (heappop heap).1.2 with
                quantity := (heappop heap).1.2.quantity - remaining }))
        (remaining - min remaining ((heappop heap).1.2.quantity - remaining))
        (total + (remaining : Int) * (heappop heap).1.2.price)
        (hist ++ [{ (heappop heap).1.2 with
                      quantity := (heappop heap).1.2.quantity - remaining }])
        fullex := by
  rw [consumeLoopA]
  rw [dif_pos ⟨hne, hrem⟩]
  dsimp only
  rw [if_neg (by simp [hg]), if_neg (by intro hc; exact hm hc.1), if_pos hq]

theorem consumeLoopA_consume (pk : Order → Int) (gate : Order → Bool)
    (heap : List Entry) (remaining : Nat) (total : Int) (hist fullex : List Order)
    (hne : heap.isEmpty = false) (hrem : 0 < remaining)
    (hg : gate (heappop heap).1.2 = false)
    (hq : (heappop heap).1.2.quantity ≤ remaining) :
    consumeLoopA pk gate heap remaining total hist fullex =
      consumeLoopA pk gate (heappop heap).2
        (remaining - min remaining (heappop heap).1.2.quantity)
        (total + ((heappop heap).1.2.quantity : Int) * (heappop heap).1.2.price)
        (hist ++ [(heappop heap).1.2]) fullex := by
  rw [consumeLoopA]
  rw [dif_pos ⟨hne, hrem⟩]
  dsimp only
  rw [if_neg (by simp [hg]), if_neg (by intro hc; omega), if_neg (by omega)]

theorem consumeLoopB_stop (pk : Order → Int)
    (heap : List Entry) (remaining : Nat) (total : Int) (fullex : List Order)
    (h : heap.isEmpty = true ∨ remaining = 0) :
    consumeLoopB pk heap remaining total fullex =
      ⟨heap, remaining, total, fullex⟩ := by
  rw [consumeLoopB]
  rw [dif_neg (by rcases h with h | h <;> simp [h])]

theorem consumeLoopB_mandated (pk : Order → Int)
    (heap : List Entry) (remaining : Nat) (total : Int) (fullex : List Order)
    (hne : heap.isEmpty = false) (hrem : 0 < remaining)
    (hm : (heappop heap).1.2.type ∈ MANDATED_FULL_EXECUTION_ORDERS)
    (hq : remaining < (heappop heap).1.2.quantity) :
    consumeLoopB pk heap remaining total fullex =
      consumeLoopB pk (heappop heap).2 remaining total
        (fullex ++ [(heappop heap).1.2]) := by
  rw [consumeLoopB]
  rw [dif_pos ⟨hne, hrem⟩]
  dsimp only
  rw [if_pos ⟨hm, hq⟩]

theorem consumeLoopB_residue (pk : Order → Int)
    (heap : List Entry) (remaining : Nat) (total : Int) (fullex : List Order)
    (hne : heap.isEmpty = false) (hrem : 0 < remaining)
    (hm : (heappop heap).1.2.type ∉ MANDATED_FULL_EXECUTION_ORDERS)
    (hq : remaining < (heappop heap).1.2.quantity) :
    consumeLoopB pk heap remaining total fullex =
      consumeLoopB pk
        (heappush (heappop heap).2
          (pk { (heappop heap).1.2 with
                  quantity := (heappop heap).1.2.quantity - remaining },
            { (heappop heap).1.2 with
                quantity := (heappop heap).1.2.quantity - remaining }))
        (remaining - min remaining ((heappop heap).1.2.quantity - remaining))
        (total + (remaining : Int) * (heappop heap).1.2.price)
        fullex := by
  rw [consumeLoopB]
  rw [dif_pos ⟨hne, hrem⟩]
  dsimp only
  rw [if_neg (by intro hc; exact hm hc.1), if_pos hq]

theorem consumeLoopB_consume (pk : Order → Int)
    (heap : List Entry) (remaining : Nat) (total : Int) (fullex : List Order)
    (hne : heap.isEmpty = false) (hrem : 0 < remaining)
    (hq : (heappop heap).1.2.quantity ≤ remaining) :
    consumeLoopB pk heap remaining total fullex =
      consumeLoopB pk (heappop heap).2
        (remaining - min remaining (heappop heap).1.2.quantity)
        (total + ((heappop heap).1.2.quantity : Int) * (heappop heap).1.2.price)
        fullex := by
  rw [consumeLoopB]
  rw [dif_pos ⟨hne, hrem⟩]
  dsimp only
  rw [if_neg (by intro hc; omega), if_neg (by omega)]

theorem consumeLoopC_stop (pk : Order → Int) (gate : Order → Bool)
    (heap : List Entry) (remaining : Nat) (total : Int) (fullex : List Order)
    (h : heap.isEmpty = true ∨ remaining = 0) :
    consumeLoopC pk gate heap remaining total fullex =
      ⟨heap, remaining, total, fullex⟩ := by
  rw [consumeLoopC]
  rw [dif_neg (by rcases h with h | h <;> simp [h])]

theorem consumeLoopC_gate (pk : Order → Int) (gate : Order → Bool)
    (heap : List Entry) (remaining : Nat) (total : Int) (fullex : List Order)
    (hne : heap.isEmpty = false) (hrem : 0 < remaining)
    (hg : gate (heappop heap).1.2 = true) :
    consumeLoopC pk gate heap remaining total fullex =
      ⟨heappush (heappop heap).2
          (pk (heappop heap).1.2, (heappop heap).1.2),
        remaining, total, fullex⟩ := by
  rw [consumeLoopC]
  rw [dif_pos ⟨hne, hrem⟩]
  dsimp only
  rw [if_pos hg]

theorem consumeLoopC_mandated (pk : Order → Int) (gate : Order → Bool)
    (heap : List Entry) (remaining : Nat) (total : Int) (fullex : List Order)
    (hne : heap.isEmpty = false) (hrem : 0 < remaining)
    (hg : gate (heappop heap).1.2 = false)
    (hm : (heappop heap).1.2.type ∈ MANDATED_FULL_EXECUTION_ORDERS)
    (hq : remaining < (heappop heap).1.2.quantity) :
    consumeLoopC pk gate heap remaining total fullex =
      consumeLoopC pk gate (heappop heap).2 remaining total
        (fullex ++ [(heappop heap).1.2]) := by
  rw [consumeLoopC]
  rw [dif_pos ⟨hne, hrem⟩]
  dsimp only
  rw [if_neg (by simp [hg]), if_pos ⟨hm, hq⟩]

theorem consumeLoopC_residue (pk : Order → Int) (gate : Order → Bool)
    (heap : List Entry) (remaining : Nat) (total : Int) (fullex : List Order)
    (hne : heap.isEmpty = false) (hrem : 0 < remaining)
    (hg : gate (heappop heap).1.2 = false)
    (hm : (heappop heap).1.2.type ∉ MANDATED_FULL_EXECUTION_ORDERS)
    (hq : remaining < (heappop heap).1.2.quantity) :
    consumeLoopC pk gate heap remaining total fullex =
      consumeLoopC pk gate
        (heappush (heappop heap).2
          (pk { (heappop heap).1.2 with
                  quantity := (heappop heap).1.2.quantity - remaining },
            { (heappop heap).1.2 with
                quantity := (heappop heap).1.2.quantity - remaining }))
        (remaining - min remaining ((heappop heap).1.2.quantity - remaining))
        (total + (remaining : Int) * (heappop heap).1.2.price)
        fullex := by
  rw [consumeLoopC]
  rw [dif_pos ⟨hne, hrem⟩]
  dsimp only
  rw [if_neg (by simp [hg]), if_neg (by intro hc; exact hm hc.1), if_pos hq]

theorem consumeLoopC_consume (pk : Order → Int) (gate : Order → Bool)
    (heap : List Entry) (remaining : Nat) (total : Int) (fullex : List Order)
    (hne : heap.isEmpty = false) (hrem : 0 < remaining)
    (hg : gate (heappop heap).1.2 = false)
    (hq : (heappop heap).1.2.quantity ≤ remaining) :
    consumeLoopC pk gate heap remaining total fullex =
      consumeLoopC pk gate (heappop heap).2
        (remaining - min remaining (heappop heap).1.2.quantity)
        (total + ((heappop heap).1.2.quantity : Int) * (heappop heap).1.2.price)
        fullex := by
  rw [consumeLoopC]
  rw [dif_pos ⟨hne, hrem⟩]
  dsimp only
  rw [if_neg (by simp [hg]), if_neg (by intro hc; omega), if_neg (by omega)]

/-! ## Permutation lemmas for the heap operations -/

theorem getD_set_self (l : List Entry) (i : Nat) (x d : Entry) (h : i < l.length) :
    (l.set i x).getD i d = x := by
  rw [List.getD_eq_getElem?_getD, List.getElem?_set_self h]
  rfl

theorem getD_set_ne (l : List Entry) {i j : Nat} (x d : Entry) (h : i ≠ j) :
    (l.set i x).getD j d = l.getD j d := by
  rw [List.getD_eq_getElem?_getD, List.getElem?_set_ne h, ← List.getD_eq_getElem?_getD]

theorem set_perm :
    ∀ (l : List Entry) (i : Nat) (x d : Entry), i < l.length →
      ((l.getD i d) :: l.set i x).Perm (x :: l) := by
  intro l
  induction l with
  | nil => intro i x d h; simp at h
  | cons a t ih =>
    intro i x d h
    match i with
    | 0 => exact List.Perm.swap x a t
    | Nat.succ j =>
      exact ((List.Perm.swap a (t.getD j d) (t.set j x)).trans
        ((ih j x d (by simpa using h)).cons a)).trans (List.Perm.swap x a t)

theorem set_set_perm (l : List Entry) (p q : Nat) (x d : Entry)
    (hp : p < l.length) (hq : q < l.length) (hne : p ≠ q) :
    ((l.set p (l.getD q d)).set q x).Perm (l.set p x) := by
  have h1 := set_perm (l.set p (l.getD q d)) q x d (by simpa using hq)
  rw [getD_set_ne l (l.getD q d) d hne] at h1
  have h2 := set_perm l p (l.getD q d) d hp
  have h3 := set_perm l p x d hp
  have k1 : (l.getD p d :: l.getD q d :: (l.set p (l.getD q d)).set q x).Perm
      (x :: l.getD q d :: l) :=
    ((h1.cons (l.getD p d)).trans
      (List.Perm.swap x (l.getD p d) (l.set p (l.getD q d)))).trans (h2.cons x)
  have k2 : (l.getD p d :: l.getD q d :: l.set p x).Perm (x :: l.getD q d :: l) :=
    ((List.Perm.swap (l.getD q d) (l.getD p d) (l.set p x)).trans
      (h3.cons (l.getD q d))).trans (List.Perm.swap x (l.getD q d) l)
  exact ((k1.trans k2.symm).cons_inv).cons_inv

theorem siftdownLoop_perm :
    ∀ (p : Nat) (heap : List Entry) (s : Nat) (x : Entry), p < heap.length →
      (siftdownLoop heap s p x).Perm (heap.set p x) := by
  intro p
  induction p using Nat.strong_induction_on with
  | _ p ih =>
    intro heap s x hp
    rw [siftdownLoop]
    dsimp only
    split
    · split
      · have hpp : (p - 1) / 2 < heap.length := by omega
        have h := ih ((p - 1) / 2) (by omega)
          (heap.set p (heap.getD ((p - 1) / 2) (0, dummyOrder))) s x
          (by simpa using hpp)
        exact h.trans (set_set_perm heap p ((p - 1) / 2) x (0, dummyOrder) hp hpp (by omega))
      · exact List.Perm.refl _
    · exact List.Perm.refl _

theorem siftupLoop_perm :
    ∀ (n : Nat) (heap : List Entry) (s p : Nat) (x : Entry),
      heap.length ≤ p + n → p < heap.length →
      (siftupLoop heap s p x).Perm (heap.set p x) := by
  intro n
  induction n with
  | zero =>
    intro heap s p x hn hp
    rw [siftupLoop]
    dsimp only
    rw [dif_neg (by omega)]
    have h := siftdownLoop_perm p (heap.set p x) s x (by simpa using hp)
    rw [List.set_set] at h
    exact h
  | succ n ih =>
    intro heap s p x hn hp
    rw [siftupLoop]
    dsimp only
    split
    · split
      · next hcond =>
        have hc2 : 2 * p + 1 + 1 < heap.length := by
          rcases (Bool.and_eq_true _ _).mp hcond with ⟨hlt, _⟩
          exact of_decide_eq_true hlt
        have h := ih (heap.set p (heap.getD (2 * p + 1 + 1) (0, dummyOrder))) s
          (2 * p + 1 + 1) x
          (by simp only [List.length_set]; omega)
          (by simp only [List.length_set]; omega)
        exact h.trans
          (set_set_perm heap p (2 * p + 1 + 1) x (0, dummyOrder) hp hc2 (by omega))
      · next hguard _ =>
        have h := ih (heap.set p (heap.getD (2 * p + 1) (0, dummyOrder))) s
          (2 * p + 1) x
          (by simp only [List.length_set]; omega)
          (by simp only [List.length_set]; omega)
        exact h.trans
          (set_set_perm heap p (2 * p + 1) x (0, dummyOrder) hp (by omega) (by omega))
    · have h := siftdownLoop_perm p (heap.set p x) s x (by simpa using hp)
      rw [List.set_set] at h
      exact h

theorem getD_append_length (l : List Entry) (e d : Entry) :
    (l ++ [e]).getD l.length d = e := by
  rw [List.getD_eq_getElem?_getD, List.getElem?_append]
  simp

theorem set_append_length (l : List Entry) (e : Entry) :
    (l ++ [e]).set l.length e = l ++ [e] := by
  induction l with
  | nil => rfl
  | cons a t ih =>
    simp only [List.cons_append, List.length_cons, List.set_cons_succ, ih]

theorem heappush_perm (l : List Entry) (e : Entry) :
    (heappush l e).Perm (e :: l) := by
  have h0 : heappush l e = siftdownLoop (l ++ [e]) 0 l.length e := by
    rw [heappush, siftdown, getD_append_length]
  rw [h0]
  have h := siftdownLoop_perm l.length (l ++ [e]) 0 e (by simp)
  rw [set_append_length] at h
  exact h.trans (List.perm_append_singleton e l)

theorem heappop_perm (l : List Entry) (h : l ≠ []) :
    ((heappop l).1 :: (heappop l).2).Perm l := by
  rcases List.eq_nil_or_concat l with rfl | ⟨front, last, rfl⟩
  · exact absurd rfl h
  · rw [heappop]
    simp only [List.concat_eq_append, List.getLast?_concat, Option.getD_some, List.dropLast_concat]
    split
    · next hempty =>
      rw [List.isEmpty_iff] at hempty
      subst hempty
      exact List.Perm.refl _
    · next hnonempty =>
      rw [List.isEmpty_iff] at hnonempty
      have hlen : 0 < front.length := by
        cases front
        · exact absurd rfl hnonempty
        · simp
      have hsift : (siftup (front.set 0 last) 0).Perm (front.set 0 last) := by
        rw [siftup, getD_set_self front 0 last (0, dummyOrder) hlen]
        have h := siftupLoop_perm (front.set 0 last).length (front.set 0 last) 0 0 last
          (by omega) (by simpa using hlen)
        rw [List.set_set] at h
        exact h
      exact ((hsift.cons _).trans (set_perm front 0 last (0, dummyOrder) hlen)).trans
        (List.perm_append_singleton last front).symm

theorem mem_heappush {a : Entry} (l : List Entry) (e : Entry) :
    a ∈ heappush l e ↔ a = e ∨ a ∈ l := by
  rw [(heappush_perm l e).mem_iff]
  simp

theorem heappop_fst_mem (l : List Entry) (h : l ≠ []) : (heappop l).1 ∈ l :=
  (heappop_perm l h).mem_iff.mp (List.mem_cons_self _ _)

theorem heappop_snd_subset {a : Entry} (l : List Entry) (h : l ≠ [])
    (ha : a ∈ (heappop l).2) : a ∈ l :=
  (heappop_perm l h).mem_iff.mp (List.mem_cons_of_mem _ ha)

theorem pushAllSell_perm (orders : List Order) :
    ∀ heap : List Entry,
      (pushAllSell heap orders).Perm (heap ++ orders.map fun o => (o.price, o)) := by
  induction orders with
  | nil => intro heap; simp [pushAllSell]
  | cons o rest ih =>
    intro heap
    have h1 : pushAllSell heap (o :: rest) = pushAllSell (heappush heap (o.price, o)) rest := rfl
    rw [h1]
    refine (ih _).trans ?_
    refine (((heappush_perm heap (o.price, o)).append_right _).trans ?_)
    simp only [List.map_cons, List.cons_append]
    exact List.perm_middle.symm

theorem pushAllBuy_perm (orders : List Order) :
    ∀ heap : List Entry,
      (pushAllBuy heap orders).Perm (heap ++ orders.map fun o => (-o.price, o)) := by
  induction orders with
  | nil => intro heap; simp [pushAllBuy]
  | cons o rest ih =>
    intro heap
    have h1 : pushAllBuy heap (o :: rest) = pushAllBuy (heappush heap (-o.price, o)) rest := rfl
    rw [h1]
    refine (ih _).trans ?_
    refine (((heappush_perm heap (-o.price, o)).append_right _).trans ?_)
    simp only [List.map_cons, List.cons_append]
    exact List.perm_middle.symm

/-! ## The binary-heap invariant (price priority, C7) -/

/-- The `heapq` invariant: no element is `<` its parent (index `(i-1)/2`). -/
def heapInv (l : List Entry) : Prop :=
  ∀ i, 0 < i → i < l.length →
    entryLt (l.getD i (0, dummyOrder)) (l.getD ((i - 1) / 2) (0, dummyOrder)) = false

theorem entryLt_iff (x y : Entry) :
    entryLt x y = true ↔ (x.1 < y.1 ∨ (x.1 = y.1 ∧ x.2.price < y.2.price)) := by
  simp [entryLt]

theorem entryLt_false_iff (x y : Entry) :
    entryLt x y = false ↔ ¬(x.1 < y.1 ∨ (x.1 = y.1 ∧ x.2.price < y.2.price)) := by
  rw [← entryLt_iff]
  cases h : entryLt x y <;> simp

theorem entryLt_irrefl (x : Entry) : entryLt x x = false := by
  rw [entryLt_false_iff]
  omega

theorem entryLt_asymm {x y : Entry} (h : entryLt x y = true) : entryLt y x = false := by
  rw [entryLt_iff] at h
  rw [entryLt_false_iff]
  omega

theorem entryLt_le_trans {x y z : Entry} (h1 : entryLt y x = false)
    (h2 : entryLt z y = false) : entryLt z x = false := by
  rw [entryLt_false_iff] at *
  omega

theorem entryLt_lt_le {x p s : Entry} (h1 : entryLt x p = true)
    (h2 : entryLt s p = false) : entryLt s x = false := by
  rw [entryLt_iff] at h1
  rw [entryLt_false_iff] at *
  omega

theorem siftdownLoop_heapInv :
    ∀ (p : Nat) (heap : List Entry) (x : Entry),
      p < heap.length →
      (∀ j, 0 < j → j < heap.length → j ≠ p →
        entryLt (heap.getD j (0, dummyOrder))
          (heap.getD ((j - 1) / 2) (0, dummyOrder)) = false) →
      (∀ c, (c = 2 * p + 1 ∨ c = 2 * p + 2) → c < heap.length →
        entryLt (heap.getD c (0, dummyOrder)) x = false) →
      (0 < p → ∀ c, (c = 2 * p + 1 ∨ c = 2 * p + 2) → c < heap.length →
        entryLt (heap.getD c (0, dummyOrder))
          (heap.getD ((p - 1) / 2) (0, dummyOrder)) = false) →
      heapInv (siftdownLoop heap 0 p x) := by
  intro p
  induction p using Nat.strong_induction_on with
  | _ p ih =>
    intro heap x hp I2 I3 I4
    rw [siftdownLoop]
    dsimp only
    split
    · next hpos =>
      split
      · next hlt =>
        -- the new item ascends: move the parent down into position p
        have hpp : (p - 1) / 2 < heap.length := by omega
        refine ih ((p - 1) / 2) (by omega)
          (heap.set p (heap.getD ((p - 1) / 2) (0, dummyOrder))) x
          (by simpa using hpp) ?_ ?_ ?_
        · -- I2 for the new hole at (p-1)/2
          intro j hj hjlen hjne
          rw [List.length_set] at hjlen
          by_cases hjp : j = p
          · subst hjp
            rw [getD_set_self _ _ _ _ hp,
              getD_set_ne _ _ _ (by omega : j ≠ (j - 1) / 2)]
            exact entryLt_irrefl _
          · rw [getD_set_ne _ _ _ (by omega : p ≠ j)]
            by_cases hparj : (j - 1) / 2 = p
            · have hchild : j = 2 * p + 1 ∨ j = 2 * p + 2 := by omega
              rw [hparj, getD_set_self _ _ _ _ hp]
              exact I4 hpos j hchild hjlen
            · rw [getD_set_ne _ _ _ (by omega : p ≠ (j - 1) / 2)]
              exact I2 j hj hjlen hjp
        · -- I3: children of the new hole are not below the new item
          intro c hc hclen
          rw [List.length_set] at hclen
          have hcp : c = p ∨ c ≠ p := em _
          rcases hcp with rfl | hcp
          · rw [getD_set_self _ _ _ _ hp]
            exact entryLt_asymm hlt
          · rw [getD_set_ne _ _ _ (by omega : p ≠ c)]
            have hcpar : (c - 1) / 2 = (p - 1) / 2 := by omega
            have hI2 := I2 c (by omega) hclen hcp
            rw [hcpar] at hI2
            exact entryLt_lt_le hlt hI2
        · -- I4: children of the new hole versus the grandparent
          intro hpp0 c hc hclen
          rw [List.length_set] at hclen
          have hgp : ((p - 1) / 2 - 1) / 2 ≠ p := by omega
          rw [getD_set_ne _ _ _ (by omega : p ≠ ((p - 1) / 2 - 1) / 2)]
          have hPP := I2 ((p - 1) / 2) hpp0 hpp (by omega)
          rcases em (c = p) with rfl | hcp
          · rw [getD_set_self _ _ _ _ hp]
            exact hPP
          · rw [getD_set_ne _ _ _ (by omega : p ≠ c)]
            have hcpar : (c - 1) / 2 = (p - 1) / 2 := by omega
            have hI2 := I2 c (by omega) hclen hcp
            rw [hcpar] at hI2
            exact entryLt_le_trans hPP hI2
      · next hge =>
        -- the new item stays at p
        intro j hj hjlen
        rw [List.length_set] at hjlen
        by_cases hjp : j = p
        · subst hjp
          rw [getD_set_self _ _ _ _ hp,
            getD_set_ne _ _ _ (by omega : j ≠ (j - 1) / 2)]
          exact Bool.eq_false_iff.mpr hge
        · rw [getD_set_ne _ _ _ (by omega : p ≠ j)]
          by_cases hparj : (j - 1) / 2 = p
          · have hchild : j = 2 * p + 1 ∨ j = 2 * p + 2 := by omega
            rw [hparj, getD_set_self _ _ _ _ hp]
            exact I3 j hchild hjlen
          · rw [getD_set_ne _ _ _ (by omega : p ≠ (j - 1) / 2)]
            exact I2 j hj hjlen hjp
    · next hge =>
      -- p = 0: the new item is written at the root
      have hp0 : p = 0 := by omega
      subst hp0
      intro j hj hjlen
      rw [List.length_set] at hjlen
      rw [getD_set_ne _ _ _ (by omega : 0 ≠ j)]
      by_cases hparj : (j - 1) / 2 = 0
      · have hchild : j = 1 ∨ j = 2 := by omega
        rw [hparj, getD_set_self _ _ _ _ hp]
        have hchild2 : j = 2 * 0 + 1 ∨ j = 2 * 0 + 2 := by omega
        exact I3 j hchild2 hjlen
      · rw [getD_set_ne _ _ _ (by omega : 0 ≠ (j - 1) / 2)]
        exact I2 j hj hjlen (by omega)

theorem siftupLoop_heapInv :
    ∀ (n : Nat) (heap : List Entry) (p : Nat) (x : Entry),
      heap.length ≤ p + n →
      p < heap.length →
      (∀ j, 0 < j → j < heap.length → j ≠ p → (j - 1) / 2 ≠ p →
        entryLt (heap.getD j (0, dummyOrder))
          (heap.getD ((j - 1) / 2) (0, dummyOrder)) = false) →
      (0 < p → ∀ c, (c = 2 * p + 1 ∨ c = 2 * p + 2) → c < heap.length →
        entryLt (heap.getD c (0, dummyOrder))
          (heap.getD ((p - 1) / 2) (0, dummyOrder)) = false) →
      heapInv (siftupLoop heap 0 p x) := by
  intro n
  induction n with
  | zero =>
    intro heap p x hn hp
    omega
  | succ n ih =>
    intro heap p x hn hp J2 J3
    rw [siftupLoop]
    dsimp only
    split
    · next hguard =>
      split
      · next hcond =>
        -- the right child is chosen
        rcases (Bool.and_eq_true _ _).mp hcond with ⟨h1, h2⟩
        have hr : 2 * p + 1 + 1 < heap.length := of_decide_eq_true h1
        have hlr : entryLt (heap.getD (2 * p + 1) (0, dummyOrder))
            (heap.getD (2 * p + 1 + 1) (0, dummyOrder)) = false := by
          simpa using h2
        refine ih (heap.set p (heap.getD (2 * p + 1 + 1) (0, dummyOrder)))
          (2 * p + 1 + 1) x (by simp only [List.length_set]; omega)
          (by simp only [List.length_set]; omega) ?_ ?_
        · intro j hj hjlen hjc hjpc
          rw [List.length_set] at hjlen
          by_cases hjp : j = p
          · subst hjp
            have hj0 : 0 < j := hj
            rw [getD_set_self _ _ _ _ hp,
              getD_set_ne _ _ _ (by omega : j ≠ (j - 1) / 2)]
            exact J3 hj0 (2 * j + 1 + 1) (by omega) hr
          · rw [getD_set_ne _ _ _ (by omega : p ≠ j)]
            by_cases hparj : (j - 1) / 2 = p
            · have hsib : j = 2 * p + 1 := by omega
              subst hsib
              rw [hparj, getD_set_self _ _ _ _ hp]
              exact hlr
            · rw [getD_set_ne _ _ _ (by omega : p ≠ (j - 1) / 2)]
              exact J2 j hj hjlen hjp hparj
        · intro _ c hc hclen
          rw [List.length_set] at hclen
          have hcp : ((2 * p + 1 + 1) - 1) / 2 = p := by omega
          rw [hcp, getD_set_self _ _ _ _ hp,
            getD_set_ne _ _ _ (by omega : p ≠ c)]
          have hparc : (c - 1) / 2 = 2 * p + 1 + 1 := by omega
          have := J2 c (by omega) hclen (by omega) (by omega)
          rw [hparc] at this
          exact this
      · next hcond =>
        -- the left child is chosen
        simp only [Bool.and_eq_true, decide_eq_true_eq, Bool.not_eq_true',
          not_and] at hcond
        refine ih (heap.set p (heap.getD (2 * p + 1) (0, dummyOrder)))
          (2 * p + 1) x (by simp only [List.length_set]; omega)
          (by simp only [List.length_set]; omega) ?_ ?_
        · intro j hj hjlen hjc hjpc
          rw [List.length_set] at hjlen
          by_cases hjp : j = p
          · subst hjp
            have hj0 : 0 < j := hj
            rw [getD_set_self _ _ _ _ hp,
              getD_set_ne _ _ _ (by omega : j ≠ (j - 1) / 2)]
            exact J3 hj0 (2 * j + 1) (by omega) (by omega)
          · rw [getD_set_ne _ _ _ (by omega : p ≠ j)]
            by_cases hparj : (j - 1) / 2 = p
            · have hsib : j = 2 * p + 1 + 1 := by omega
              subst hsib
              rw [hparj, getD_set_self _ _ _ _ hp]
              have hlt : entryLt (heap.getD (2 * p + 1) (0, dummyOrder))
                  (heap.getD (2 * p + 1 + 1) (0, dummyOrder)) = true := by
                have := hcond (by omega)
                cases hel : entryLt (heap.getD (2 * p + 1) (0, dummyOrder))
                    (heap.getD (2 * p + 1 + 1) (0, dummyOrder))
                · exact absurd hel this
                · rfl
              exact entryLt_asymm hlt
            · rw [getD_set_ne _ _ _ (by omega : p ≠ (j - 1) / 2)]
              exact J2 j hj hjlen hjp hparj
        · intro _ c hc hclen
          rw [List.length_set] at hclen
          have hcp : ((2 * p + 1) - 1) / 2 = p := by omega
          rw [hcp, getD_set_self _ _ _ _ hp,
            getD_set_ne _ _ _ (by omega : p ≠ c)]
          have hparc : (c - 1) / 2 = 2 * p + 1 := by omega
          have := J2 c (by omega) hclen (by omega) (by omega)
          rw [hparc] at this
          exact this
    · next hguard =>
      -- leaf reached: place the new item and sift it down towards the root
      refine siftdownLoop_heapInv p (heap.set p x) x (by simpa using hp) ?_ ?_ ?_
      · intro j hj hjlen hjp
        rw [List.length_set] at hjlen
        rw [getD_set_ne _ _ _ (by omega : p ≠ j)]
        have hparj : (j - 1) / 2 ≠ p := by omega
        rw [getD_set_ne _ _ _ (by omega : p ≠ (j - 1) / 2)]
        exact J2 j hj hjlen hjp hparj
      · intro c hc hclen
        rw [List.length_set] at hclen
        omega
      · intro _ c hc hclen
        rw [List.length_set] at hclen
        omega

theorem getD_append_lt (l l2 : List Entry) (i : Nat) (d : Entry) (h : i < l.length) :
    (l ++ l2).getD i d = l.getD i d := by
  rw [List.getD_eq_getElem?_getD, List.getElem?_append, if_pos h,
    ← List.getD_eq_getElem?_getD]

theorem heapInv_nil : heapInv [] := by
  intro i h1 h2
  simp at h2

theorem heappush_heapInv (l : List Entry) (e : Entry) (h : heapInv l) :
    heapInv (heappush l e) := by
  have h0 : heappush l e = siftdownLoop (l ++ [e]) 0 l.length e := by
    rw [heappush, siftdown, getD_append_length]
  rw [h0]
  refine siftdownLoop_heapInv l.length (l ++ [e]) e (by simp) ?_ ?_ ?_
  · intro j hj hjlen hjne
    simp only [List.length_append, List.length_singleton] at hjlen
    have hjl : j < l.length := by omega
    rw [getD_append_lt _ _ _ _ hjl, getD_append_lt _ _ _ _ (by omega)]
    exact h j hj hjl
  · intro c hc hclen
    simp only [List.length_append, List.length_singleton] at hclen
    omega
  · intro hpos c hc hclen
    simp only [List.length_append, List.length_singleton] at hclen
    omega

theorem heappop_heapInv (l : List Entry) (h : heapInv l) : heapInv (heappop l).2 := by
  rcases List.eq_nil_or_concat l with rfl | ⟨front, last, rfl⟩
  · exact heapInv_nil
  · simp only [List.concat_eq_append] at h
    rw [heappop]
    simp only [List.concat_eq_append, List.getLast?_concat, Option.getD_some,
      List.dropLast_concat]
    split
    · exact heapInv_nil
    · next hne =>
      have hlen : 0 < front.length := by
        cases front
        · simp at hne
        · simp
      dsimp only
      rw [siftup, getD_set_self front 0 last _ hlen]
      refine siftupLoop_heapInv (front.set 0 last).length (front.set 0 last) 0 last
        (by omega) (by simpa using hlen) ?_ ?_
      · intro j hj hjlen hjp hparj
        rw [List.length_set] at hjlen
        rw [getD_set_ne _ _ _ (by omega : 0 ≠ j),
          getD_set_ne _ _ _ (by omega : 0 ≠ (j - 1) / 2)]
        have hfull := h j hj (by simp only [List.length_append, List.length_singleton]; omega)
        rw [getD_append_lt _ _ _ _ hjlen, getD_append_lt _ _ _ _ (by omega)] at hfull
        exact hfull
      · intro h0
        exact absurd h0 (by omega)

theorem heapInv_root_le (l : List Entry) (h : heapInv l) :
    ∀ i, i < l.length →
      entryLt (l.getD i (0, dummyOrder)) (l.getD 0 (0, dummyOrder)) = false := by
  intro i
  induction i using Nat.strong_induction_on with
  | _ i ih =>
    intro hi
    rcases Nat.eq_zero_or_pos i with rfl | hpos
    · exact entryLt_irrefl _
    · exact entryLt_le_trans (ih ((i - 1) / 2) (by omega) (by omega)) (h i hpos hi)

theorem heappop_fst_eq (l : List Entry) (h : l ≠ []) :
    (heappop l).1 = l.getD 0 (0, dummyOrder) := by
  rcases List.eq_nil_or_concat l with rfl | ⟨front, last, rfl⟩
  · exact absurd rfl h
  · rw [heappop]
    simp only [List.concat_eq_append, List.getLast?_concat, Option.getD_some,
      List.dropLast_concat]
    split
    · next hempty =>
      rw [List.isEmpty_iff] at hempty
      subst hempty
      simp [List.getD]
    · next hne =>
      have hlen : 0 < front.length := by
        cases front
        · simp at hne
        · simp
      dsimp only
      rw [getD_append_lt _ _ _ _ hlen]

/-- Under the heap invariant, the entry returned by `heappop` has the least
key (first tuple component) of the whole heap. -/
theorem heappop_min_key (l : List Entry) (h : heapInv l) (hne : l ≠ []) :
    ∀ e ∈ l, (heappop l).1.1 ≤ e.1 := by
  intro e he
  rcases List.getElem_of_mem he with ⟨i, hi, rfl⟩
  have hroot := heapInv_root_le l h i hi
  rw [heappop_fst_eq l hne]
  rw [entryLt_false_iff] at hroot
  have hgd : l.getD i (0, dummyOrder) = l[i] := List.getD_eq_getElem l _ hi
  rw [hgd] at hroot
  omega

/-! ## Reachable heap states -/

/-- Heap states reachable through the book's push and pop operations
(`push_to_buy_queue`/`push_to_sell_queue` push an entry, `pop_buy`/`pop_sell`
pop; the matching loops use only these). -/
inductive ReachableHeap : List Entry → Prop
  | empty : ReachableHeap []
  | push {h : List Entry} (e : Entry) : ReachableHeap h → ReachableHeap (heappush h e)
  | pop {h : List Entry} : ReachableHeap h → ReachableHeap (heappop h).2

/-- Sample orders used in concrete witnesses. -/
def wA : Order := ⟨"SUB", "w1", "LO", "B", 10, 100⟩

def wB : Order := ⟨"SUB", "w2", "LO", "B", 5, 105⟩

/-- C7: in every book state whose heaps are reachable through push and pop,
the `heapq` invariant holds (push and pop maintain it), and under that
invariant the first order popped from the buy side has price ≥ the price of
every resting buy order, while the first order popped from the sell side has
price ≤ the price of every resting sell order (buy entries are keyed by
`-price`, sell entries by `price`, as pushed by the book). -/
theorem claim_C7_price_priority :
    (∀ h : List Entry, ReachableHeap h → heapInv h) ∧
    (∀ bk : OrderBook, heapInv bk.buy → bk.buy ≠ [] →
      (∀ e ∈ bk.buy, e.1 = -e.2.price) →
      ∀ e ∈ bk.buy, e.2.price ≤ bk.pop_buy.1.price) ∧
    (∀ bk : OrderBook, heapInv bk.sell → bk.sell ≠ [] →
      (∀ e ∈ bk.sell, e.1 = e.2.price) →
      ∀ e ∈ bk.sell, bk.pop_sell.1.price ≤ e.2.price) := by
  refine ⟨?_, ?_, ?_⟩
  · intro h hr
    induction hr with
    | empty => exact heapInv_nil
    | push e _ ih => exact heappush_heapInv _ e ih
    | pop _ ih => exact heappop_heapInv _ ih
  · intro bk hinv hne hwf e he
    have hmin := heappop_min_key bk.buy hinv hne e he
    have hfst : (heappop bk.buy).1 ∈ bk.buy := heappop_fst_mem bk.buy hne
    have h1 := hwf _ hfst
    have h2 := hwf _ he
    have h3 : bk.pop_buy.1.price = (heappop bk.buy).1.2.price := rfl
    rw [h3]
    omega
  · intro bk hinv hne hwf e he
    have hmin := heappop_min_key bk.sell hinv hne e he
    have hfst : (heappop bk.sell).1 ∈ bk.sell := heappop_fst_mem bk.sell hne
    have h1 := hwf _ hfst
    have h2 := hwf _ he
    have h3 : bk.pop_sell.1.price = (heappop bk.sell).1.2.price := rfl
    rw [h3]
    omega

theorem claim_C7_price_priority_witness :
    wA.price ≤ (OrderBook.pop_buy ⟨heappush (heappush [] (-100, wA)) (-105, wB), []⟩).1.price :=
  claim_C7_price_priority.2.1
    ⟨heappush (heappush [] (-100, wA)) (-105, wB), []⟩
    (claim_C7_price_priority.1 _
      (ReachableHeap.push _ (ReachableHeap.push _ ReachableHeap.empty)))
    (by rw [heappush_nil, heappush_one]; simp [entryLt])
    (by rw [heappush_nil, heappush_one]
        intro e he
        simp [entryLt] at he
        rcases he with rfl | rfl <;> simp [wA, wB])
    (-100, wA)
    (by rw [heappush_nil, heappush_one]; simp [entryLt])

/-! ## Concrete orders and books used by the claims -/

/-- Limit buy `id1`, quantity 10, price 100 (spec scenario 1). -/
def o1 : Order := ⟨"SUB", "id1", "LO", "B", 10, 100⟩

/-- Limit sell `id2`, quantity 5, price 100 (spec scenario 2). -/
def o2 : Order := ⟨"SUB", "id2", "LO", "S", 5, 100⟩

/-- Limit sell with the duplicate id `id1`, quantity 20, price 100. -/
def o3 : Order := ⟨"SUB", "id1", "LO", "S", 20, 100⟩

/-- A resting GoodTillCancel sell, quantity 7, price 100.  GTC is the one
resting kind outside `MANDATED_FULL_EXECUTION_ORDERS`, so it can be partially
consumed. -/
def g7 : Order := ⟨"SUB", "g1", "GTC", "S", 7, 100⟩

/-- `g7` after partial consumption of 5 units. -/
def g2 : Order := ⟨"SUB", "g1", "GTC", "S", 2, 100⟩

/-- Market buy, quantity 5.  A Market order's `price` is `None` in Python and
is never read during its execution; the embedded field value is irrelevant and
set to 0. -/
def mo5 : Order := ⟨"SUB", "id4", "MO", "B", 5, 0⟩

/-- FillOrKill buy, quantity 5, price 100. -/
def fok5 : Order := ⟨"SUB", "id3", "FOK", "B", 5, 100⟩

/-- C1: refuted by evaluation.  A Market buy of 5 against a single resting
GTC sell of 7 at price 100 reaches the consume step with
`top.quantity > remaining`; the claim says this realizes 5 × 100 = 500, sets
the remainder to 0 and leaves `top` (quantity 2) resting.  The code instead
updates the remainder with `min` of the *already decremented* quantity,
leaving remainder 3, then re-consumes the pushed-back order: it realizes 700
and empties the sell side. -/
theorem claim_C1_consume_step :
    MarketOrder.execute_buy mo5 ⟨[], [(100, g7)]⟩ = (700, ⟨[], []⟩) ∧
    (700 : Int) ≠ 500 := by
  constructor
  · simp [MarketOrder.execute_buy, consumeLoopB_residue, consumeLoopB_consume,
      consumeLoopB_stop, heappop_one, heappush_nil, pushAllSell,
      MANDATED_FULL_EXECUTION_ORDERS, g7, g2, mo5]
  · decide

/-- C2: refuted by evaluation.  `cancel_order` iterates over the raw heap
entries — `(price, order)` tuples — and dereferences `.uid` on a tuple, so it
raises `AttributeError` on any book with a resting order; on an empty book it
falls through silently (`None`), signalling nothing. -/
theorem claim_C2_cancel :
    OrderBook.cancel_order ⟨[], [(100, g7)]⟩ "g1" =
      .error "AttributeError: 'tuple' object has no attribute 'uid'" ∧
    OrderBook.cancel_order ⟨[], []⟩ "id_unknown" = .ok ⟨[], []⟩ := by
  constructor <;> rfl

/-- C3 counterexample: the second submission of the spec scenario returns 0,
not 500.  The resting Limit buy (quantity 10 > incoming 5) is a
mandated-full-execution order, so the incoming sell sets it aside instead of
partially consuming it, fails to fill, and rests. -/
theorem claim_C3_counterexample :
    (LimitOrder.execute_sell o2 (LimitOrder.execute_buy o1 ⟨[], []⟩).2).1 ≠ 500 := by
  have h1 : LimitOrder.execute_buy o1 ⟨[], []⟩ = (0, ⟨[(-100, o1)], []⟩) := by
    simp [LimitOrder.execute_buy, consumeLoopA_stop, heappush_nil, pushAllSell, o1]
  rw [h1]
  have h2 : LimitOrder.execute_sell o2 ⟨[(-100, o1)], []⟩ =
      (0, ⟨[(-100, o1)], [(100, o2)]⟩) := by
    simp [LimitOrder.execute_sell, consumeLoopA_mandated, consumeLoopA_stop,
      heappop_one, heappush_nil, pushAllBuy, pushAllSell,
      MANDATED_FULL_EXECUTION_ORDERS, o1, o2]
  rw [h2]
  decide

/-- C3 amended: submitting Limit Buy `id1` 10 @ 100 on an empty book rests it
and returns 0; the following Limit Sell `id2` 5 @ 100 returns 0 (not 500):
the resting buy is set aside by the mandated-full-execution check (10 > 5),
remains resting with quantity 10, and the sell rests with quantity 5 on the
sell side. -/
theorem claim_C3_amended :
    LimitOrder.execute_buy o1 ⟨[], []⟩ = (0, ⟨[(-100, o1)], []⟩) ∧
    LimitOrder.execute_sell o2 ⟨[(-100, o1)], []⟩ =
      (0, ⟨[(-100, o1)], [(100, o2)]⟩) := by
  constructor
  · simp [LimitOrder.execute_buy, consumeLoopA_stop, heappush_nil, pushAllSell, o1]
  · simp [LimitOrder.execute_sell, consumeLoopA_mandated, consumeLoopA_stop,
      heappop_one, heappush_nil, pushAllBuy, pushAllSell,
      MANDATED_FULL_EXECUTION_ORDERS, o1, o2]

/-- C4: refuted by evaluation.  `OrderFactory.submit_orders` registers only
`"LO"`, so the factory raises `KeyError` for the other four kinds and for
every Cancel command (whose `type` is `None`); no Cancel ever reaches
`OrderBook.cancel_order` through the engine. -/
theorem claim_C4_dispatch :
    MatchingEngine.process_order ⟨[], []⟩ ⟨"SUB", "id4", some "MO", some "B", some 5, none⟩ =
      .error "KeyError" ∧
    MatchingEngine.process_order ⟨[], []⟩ ⟨"SUB", "id4", some "IOC", some "B", some 5, some 100⟩ =
      .error "KeyError" ∧
    MatchingEngine.process_order ⟨[], []⟩ ⟨"SUB", "id4", some "FOK", some "B", some 5, some 100⟩ =
      .error "KeyError" ∧
    MatchingEngine.process_order ⟨[], []⟩ ⟨"SUB", "id4", some "GTC", some "B", some 5, some 100⟩ =
      .error "KeyError" ∧
    MatchingEngine.process_order ⟨[], []⟩ ⟨"CXL", "id1", none, none, none, none⟩ =
      .error "KeyError" := by
  refine ⟨rfl, rfl, rfl, rfl, rfl⟩

/-- C5: refuted by evaluation.  A FillOrKill buy of 5 @ 100 against a single
resting GTC sell of 7 @ 100 does not fully fill and returns 0, but the
rollback does not restore the book: the partially consumed order was
re-consumed (the remainder never dropped to 0) and recorded twice in the
history, so the restore pushes quantity 2 twice — the price-100 aggregate
drops from 7 to 4. -/
theorem claim_C5_rollback :
    FOKOrder.execute_buy fok5 ⟨[], [(100, g7)]⟩ =
      (0, ⟨[], [(100, g2), (100, g2)]⟩) ∧
    ((⟨[], [(100, g2), (100, g2)]⟩ : OrderBook) ≠ ⟨[], [(100, g7)]⟩) := by
  constructor
  · simp [FOKOrder.execute_buy, consumeLoopA_residue, consumeLoopA_consume,
      consumeLoopA_stop, heappop_one, heappush_nil, heappush_one, pushAllSell,
      MANDATED_FULL_EXECUTION_ORDERS, entryLt, g7, g2, fok5]
  · decide

/-- C8 counterexample: submitting Limit Sell `id1` 20 @ 100 — a duplicate of
the resting buy id — is not rejected: it is matched (consuming the resting
buy), rolled back, and rested, mutating the book and leaving `id1` present in
*both* collections at once. -/
theorem claim_C8_counterexample :
    LimitOrder.execute_sell o3 (LimitOrder.execute_buy o1 ⟨[], []⟩).2 =
      (0, ⟨[(-100, o1)], [(100, o3)]⟩) ∧
    o1.uid = o3.uid ∧
    ((⟨[(-100, o1)], [(100, o3)]⟩ : OrderBook) ≠ (LimitOrder.execute_buy o1 ⟨[], []⟩).2) := by
  have h1 : LimitOrder.execute_buy o1 ⟨[], []⟩ = (0, ⟨[(-100, o1)], []⟩) := by
    simp [LimitOrder.execute_buy, consumeLoopA_stop, heappush_nil, pushAllSell, o1]
  rw [h1]
  refine ⟨?_, rfl, by decide⟩
  simp [LimitOrder.execute_sell, consumeLoopA_consume, consumeLoopA_stop,
    heappop_one, heappush_nil, pushAllBuy, pushAllSell,
    MANDATED_FULL_EXECUTION_ORDERS, o1, o3]

/-! ## Provenance of the set-aside (mandated-full-execution) orders -/

theorem consumeLoopA_fullex_src (pk : Order → Int) (gate : Order → Bool) :
    ∀ (n : Nat) (heap : List Entry) (remaining : Nat) (total : Int)
      (hist fullex : List Order) (x : Order),
      heap.length + remaining ≤ n →
      x ∈ (consumeLoopA pk gate heap remaining total hist fullex).fullex →
      x ∈ fullex ∨
        ((∃ k, (k, x) ∈ heap) ∧ x.type ∈ MANDATED_FULL_EXECUTION_ORDERS) := by
  intro n
  induction n with
  | zero =>
    intro heap remaining total hist fullex x hn hx
    rw [consumeLoopA_stop _ _ _ _ _ _ _ (Or.inr (by omega))] at hx
    exact Or.inl hx
  | succ n ih =>
    intro heap remaining total hist fullex x hn hx
    by_cases hne : heap.isEmpty = true
    · rw [consumeLoopA_stop _ _ _ _ _ _ _ (Or.inl hne)] at hx
      exact Or.inl hx
    · have hne' : heap.isEmpty = false := by simpa using hne
      have hnil : heap ≠ [] := by
        cases heap
        · simp at hne'
        · simp
      rcases Nat.eq_zero_or_pos remaining with hz | hrem
      · rw [consumeLoopA_stop _ _ _ _ _ _ _ (Or.inr hz)] at hx
        exact Or.inl hx
      · have hl := heappop_length heap hnil
        by_cases hg : gate (heappop heap).1.2 = true
        · rw [consumeLoopA_gate _ _ _ _ _ _ _ hne' hrem hg] at hx
          exact Or.inl hx
        · have hg' : gate (heappop heap).1.2 = false := by simpa using hg
          by_cases hm : (heappop heap).1.2.type ∈ MANDATED_FULL_EXECUTION_ORDERS ∧
              remaining < (heappop heap).1.2.quantity
          · rw [consumeLoopA_mandated _ _ _ _ _ _ _ hne' hrem hg' hm.1 hm.2] at hx
            rcases ih _ _ _ _ _ x (by omega) hx with hfx | ⟨⟨k, hk⟩, hty⟩
            · rcases List.mem_append.mp hfx with hfx | hfx
              · exact Or.inl hfx
              · right
                have hx2 : x = (heappop heap).1.2 := by simpa using hfx
                subst hx2
                refine ⟨⟨(heappop heap).1.1, ?_⟩, hm.1⟩
                exact heappop_fst_mem heap hnil
            · exact Or.inr ⟨⟨k, heappop_snd_subset heap hnil hk⟩, hty⟩
          · by_cases hq : remaining < (heappop heap).1.2.quantity
            · have hm' : (heappop heap).1.2.type ∉ MANDATED_FULL_EXECUTION_ORDERS :=
                fun hmem => hm ⟨hmem, hq⟩
              rw [consumeLoopA_residue _ _ _ _ _ _ _ hne' hrem hg' hm' hq] at hx
              have hlen2 : (heappush (heappop heap).2
                  (pk { (heappop heap).1.2 with
                          quantity := (heappop heap).1.2.quantity - remaining },
                    { (heappop heap).1.2 with
                        quantity := (heappop heap).1.2.quantity - remaining })).length =
                  heap.length := by
                rw [heappush_length]
                omega
              rcases ih _ _ _ _ _ x (by rw [hlen2]; omega) hx with hfx | ⟨⟨k, hk⟩, hty⟩
              · exact Or.inl hfx
              · rcases (mem_heappush _ _).mp hk with hk1 | hk2
                · exfalso
                  apply hm'
                  have : x = { (heappop heap).1.2 with
                      quantity := (heappop heap).1.2.quantity - remaining } :=
                    congrArg Prod.snd hk1
                  rw [this] at hty
                  exact hty
                · exact Or.inr ⟨⟨k, heappop_snd_subset heap hnil hk2⟩, hty⟩
            · rw [consumeLoopA_consume _ _ _ _ _ _ _ hne' hrem hg' (by omega)] at hx
              rcases ih _ _ _ _ _ x (by omega) hx with hfx | ⟨⟨k, hk⟩, hty⟩
              · exact Or.inl hfx
              · exact Or.inr ⟨⟨k, heappop_snd_subset heap hnil hk⟩, hty⟩

theorem consumeLoopB_fullex_src (pk : Order → Int) :
    ∀ (n : Nat) (heap : List Entry) (remaining : Nat) (total : Int)
      (fullex : List Order) (x : Order),
      heap.length + remaining ≤ n →
      x ∈ (consumeLoopB pk heap remaining total fullex).fullex →
      x ∈ fullex ∨
        ((∃ k, (k, x) ∈ heap) ∧ x.type ∈ MANDATED_FULL_EXECUTION_ORDERS) := by
  intro n
  induction n with
  | zero =>
    intro heap remaining total fullex x hn hx
    rw [consumeLoopB_stop _ _ _ _ _ (Or.inr (by omega))] at hx
    exact Or.inl hx
  | succ n ih =>
    intro heap remaining total fullex x hn hx
    by_cases hne : heap.isEmpty = true
    · rw [consumeLoopB_stop _ _ _ _ _ (Or.inl hne)] at hx
      exact Or.inl hx
    · have hne' : heap.isEmpty = false := by simpa using hne
      have hnil : heap ≠ [] := by
        cases heap
        · simp at hne'
        · simp
      rcases Nat.eq_zero_or_pos remaining with hz | hrem
      · rw [consumeLoopB_stop _ _ _ _ _ (Or.inr hz)] at hx
        exact Or.inl hx
      · have hl := heappop_length heap hnil
        by_cases hm : (heappop heap).1.2.type ∈ MANDATED_FULL_EXECUTION_ORDERS ∧
            remaining < (heappop heap).1.2.quantity
        · rw [consumeLoopB_mandated _ _ _ _ _ hne' hrem hm.1 hm.2] at hx
          rcases ih _ _ _ _ x (by omega) hx with hfx | ⟨⟨k, hk⟩, hty⟩
          · rcases List.mem_append.mp hfx with hfx | hfx
            · exact Or.inl hfx
            · right
              have hx2 : x = (heappop heap).1.2 := by simpa using hfx
              subst hx2
              exact ⟨⟨(heappop heap).1.1, heappop_fst_mem heap hnil⟩, hm.1⟩
          · exact Or.inr ⟨⟨k, heappop_snd_subset heap hnil hk⟩, hty⟩
        · by_cases hq : remaining < (heappop heap).1.2.quantity
          · have hm' : (heappop heap).1.2.type ∉ MANDATED_FULL_EXECUTION_ORDERS :=
              fun hmem => hm ⟨hmem, hq⟩
            rw [consumeLoopB_residue _ _ _ _ _ hne' hrem hm' hq] at hx
            have hlen2 : (heappush (heappop heap).2
                (pk { (heappop heap).1.2 with
                        quantity := (heappop heap).1.2.quantity - remaining },
                  { (heappop heap).1.2 with
                      quantity := (heappop heap).1.2.quantity - remaining })).length =
                heap.length := by
              rw [heappush_length]
              omega
            rcases ih _ _ _ _ x (by rw [hlen2]; omega) hx with hfx | ⟨⟨k, hk⟩, hty⟩
            · exact Or.inl hfx
            · rcases (mem_heappush _ _).mp hk with hk1 | hk2
              · exfalso
                apply hm'
                have : x = { (heappop heap).1.2 with
                    quantity := (heappop heap).1.2.quantity - remaining } :=
                  congrArg Prod.snd hk1
                rw [this] at hty
                exact hty
              · exact Or.inr ⟨⟨k, heappop_snd_subset heap hnil hk2⟩, hty⟩
          · rw [consumeLoopB_consume _ _ _ _ _ hne' hrem (by omega)] at hx
            rcases ih _ _ _ _ x (by omega) hx with hfx | ⟨⟨k, hk⟩, hty⟩
            · exact Or.inl hfx
            · exact Or.inr ⟨⟨k, heappop_snd_subset heap hnil hk⟩, hty⟩

theorem consumeLoopC_fullex_src (pk : Order → Int) (gate : Order → Bool) :
    ∀ (n : Nat) (heap : List Entry) (remaining : Nat) (total : Int)
      (fullex : List Order) (x : Order),
      heap.length + remaining ≤ n →
      x ∈ (consumeLoopC pk gate heap remaining total fullex).fullex →
      x ∈ fullex ∨
        ((∃ k, (k, x) ∈ heap) ∧ x.type ∈ MANDATED_FULL_EXECUTION_ORDERS) := by
  intro n
  induction n with
  | zero =>
    intro heap remaining total fullex x hn hx
    rw [consumeLoopC_stop _ _ _ _ _ _ (Or.inr (by omega))] at hx
    exact Or.inl hx
  | succ n ih =>
    intro heap remaining total fullex x hn hx
    by_cases hne : heap.isEmpty = true
    · rw [consumeLoopC_stop _ _ _ _ _ _ (Or.inl hne)] at hx
      exact Or.inl hx
    · have hne' : heap.isEmpty = false := by simpa using hne
      have hnil : heap ≠ [] := by
        cases heap
        · simp at hne'
        · simp
      rcases Nat.eq_zero_or_pos remaining with hz | hrem
      · rw [consumeLoopC_stop _ _ _ _ _ _ (Or.inr hz)] at hx
        exact Or.inl hx
      · have hl := heappop_length heap hnil
        by_cases hg : gate (heappop heap).1.2 = true
        · rw [consumeLoopC_gate _ _ _ _ _ _ hne' hrem hg] at hx
          exact Or.inl hx
        · have hg' : gate (heappop heap).1.2 = false := by simpa using hg
          by_cases hm : (heappop heap).1.2.type ∈ MANDATED_FULL_EXECUTION_ORDERS ∧
              remaining < (heappop heap).1.2.quantity
          · rw [consumeLoopC_mandated _ _ _ _ _ _ hne' hrem hg' hm.1 hm.2] at hx
            rcases ih _ _ _ _ x (by omega) hx with hfx | ⟨⟨k, hk⟩, hty⟩
            · rcases List.mem_append.mp hfx with hfx | hfx
              · exact Or.inl hfx
              · right
                have hx2 : x = (heappop heap).1.2 := by simpa using hfx
                subst hx2
                exact ⟨⟨(heappop heap).1.1, heappop_fst_mem heap hnil⟩, hm.1⟩
            · exact Or.inr ⟨⟨k, heappop_snd_subset heap hnil hk⟩, hty⟩
          · by_cases hq : remaining < (heappop heap).1.2.quantity
            · have hm' : (heappop heap).1.2.type ∉ MANDATED_FULL_EXECUTION_ORDERS :=
                fun hmem => hm ⟨hmem, hq⟩
              rw [consumeLoopC_residue _ _ _ _ _ _ hne' hrem hg' hm' hq] at hx
              have hlen2 : (heappush (heappop heap).2
                  (pk { (heappop heap).1.2 with
                          quantity := (heappop heap).1.2.quantity - remaining },
                    { (heappop heap).1.2 with
                        quantity := (heappop heap).1.2.quantity - remaining })).length =
                  heap.length := by
                rw [heappush_length]
                omega
              rcases ih _ _ _ _ x (by rw [hlen2]; omega) hx with hfx | ⟨⟨k, hk⟩, hty⟩
              · exact Or.inl hfx
              · rcases (mem_heappush _ _).mp hk with hk1 | hk2
                · exfalso
                  apply hm'
                  have : x = { (heappop heap).1.2 with
                      quantity := (heappop heap).1.2.quantity - remaining } :=
                    congrArg Prod.snd hk1
                  rw [this] at hty
                  exact hty
                · exact Or.inr ⟨⟨k, heappop_snd_subset heap hnil hk2⟩, hty⟩
            · rw [consumeLoopC_consume _ _ _ _ _ _ hne' hrem hg' (by omega)] at hx
              rcases ih _ _ _ _ x (by omega) hx with hfx | ⟨⟨k, hk⟩, hty⟩
              · exact Or.inl hfx
              · exact Or.inr ⟨⟨k, heappop_snd_subset heap hnil hk⟩, hty⟩

theorem mem_pushAllSell_right {x : Order} (heap : List Entry) (orders : List Order)
    (h : x ∈ orders) : (x.price, x) ∈ pushAllSell heap orders :=
  (pushAllSell_perm orders heap).mem_iff.mpr
    (List.mem_append_right _ (List.mem_map_of_mem _ h))

theorem mem_pushAllBuy_right {x : Order} (heap : List Entry) (orders : List Order)
    (h : x ∈ orders) : (-x.price, x) ∈ pushAllBuy heap orders :=
  (pushAllBuy_perm orders heap).mem_iff.mpr
    (List.mem_append_right _ (List.mem_map_of_mem _ h))

theorem mem_pushAllSell_iff {e : Entry} (heap : List Entry) (orders : List Order) :
    e ∈ pushAllSell heap orders ↔ e ∈ heap ∨ ∃ x ∈ orders, (x.price, x) = e := by
  rw [(pushAllSell_perm orders heap).mem_iff, List.mem_append]
  simp [List.mem_map]

theorem mem_pushAllBuy_iff {e : Entry} (heap : List Entry) (orders : List Order) :
    e ∈ pushAllBuy heap orders ↔ e ∈ heap ∨ ∃ x ∈ orders, (-x.price, x) = e := by
  rw [(pushAllBuy_perm orders heap).mem_iff, List.mem_append]
  simp [List.mem_map]

/-- A resting Limit sell used in the C6 witness. -/
def lw : Order := ⟨"SUB", "w3", "LO", "S", 5, 100⟩

/-- A Market buy used in the C6 witness (price is never read). -/
def mo3 : Order := ⟨"SUB", "w4", "MO", "B", 3, 0⟩

/-- C6: every order set aside by the mandated-full-execution check during a
matching call (collected in the loop's `full_execution_orders` list) came from
the opposing side, is of a mandated kind (Limit/FillOrKill), and is pushed
back unconditionally after the loop: the very same order value — hence with
unchanged id, price and quantity — is an entry of the opposing side of the
resulting book, whether the incoming order fills, partially fills or rolls
back.  Stated for the buy-side calls of all five kinds (the sell side is the
mirror image): Limit and FillOrKill share `consumeLoopA`, Market uses
`consumeLoopB`, ImmediateOrCancel and GoodTillCancel share `consumeLoopC`. -/
theorem claim_C6_mandated_preserved :
    (∀ (o : Order) (bk : OrderBook) (x : Order),
      x ∈ (consumeLoopA (fun e => e.price) (fun t => decide (o.price < t.price))
            bk.sell o.quantity 0 [] []).fullex →
      (∃ k, (k, x) ∈ bk.sell) ∧ x.type ∈ MANDATED_FULL_EXECUTION_ORDERS ∧
        (x.price, x) ∈ (LimitOrder.execute_buy o bk).2.sell ∧
        (x.price, x) ∈ (FOKOrder.execute_buy o bk).2.sell) ∧
    (∀ (o : Order) (bk : OrderBook) (x : Order),
      x ∈ (consumeLoopB (fun e => e.price) bk.sell o.quantity 0 []).fullex →
      (∃ k, (k, x) ∈ bk.sell) ∧ x.type ∈ MANDATED_FULL_EXECUTION_ORDERS ∧
        (x.price, x) ∈ (MarketOrder.execute_buy o bk).2.sell) ∧
    (∀ (o : Order) (bk : OrderBook) (x : Order),
      x ∈ (consumeLoopC (fun e => e.price) (fun t => decide (o.price < t.price))
            bk.sell o.quantity 0 []).fullex →
      (∃ k, (k, x) ∈ bk.sell) ∧ x.type ∈ MANDATED_FULL_EXECUTION_ORDERS ∧
        (x.price, x) ∈ (IOCOrder.execute_buy o bk).2.sell ∧
        (x.price, x) ∈ (GTCOrder.execute_buy o bk).2.sell) := by
  refine ⟨?_, ?_, ?_⟩
  · intro o bk x hx
    have hsrc := consumeLoopA_fullex_src (fun e => e.price)
      (fun t => decide (o.price < t.price)) (bk.sell.length + o.quantity)
      bk.sell o.quantity 0 [] [] x (le_refl _) hx
    rcases hsrc with h | ⟨hk, hty⟩
    · simp at h
    · refine ⟨hk, hty, ?_, ?_⟩
      · rw [LimitOrder.execute_buy]
        try dsimp only
        split
        · exact mem_pushAllSell_right _ _ hx
        · exact mem_pushAllSell_right _ _ hx
      · rw [FOKOrder.execute_buy]
        try dsimp only
        split
        · exact mem_pushAllSell_right _ _ hx
        · exact mem_pushAllSell_right _ _ hx
  · intro o bk x hx
    have hsrc := consumeLoopB_fullex_src (fun e => e.price)
      (bk.sell.length + o.quantity) bk.sell o.quantity 0 [] x (le_refl _) hx
    rcases hsrc with h | ⟨hk, hty⟩
    · simp at h
    · refine ⟨hk, hty, ?_⟩
      rw [MarketOrder.execute_buy]
      try dsimp only
      exact mem_pushAllSell_right _ _ hx
  · intro o bk x hx
    have hsrc := consumeLoopC_fullex_src (fun e => e.price)
      (fun t => decide (o.price < t.price)) (bk.sell.length + o.quantity)
      bk.sell o.quantity 0 [] x (le_refl _) hx
    rcases hsrc with h | ⟨hk, hty⟩
    · simp at h
    · refine ⟨hk, hty, ?_, ?_⟩
      · rw [IOCOrder.execute_buy]
        try dsimp only
        exact mem_pushAllSell_right _ _ hx
      · rw [GTCOrder.execute_buy]
        try dsimp only
        split
        · exact mem_pushAllSell_right _ _ hx
        · exact mem_pushAllSell_right _ _ hx

theorem claim_C6_mandated_preserved_witness :
    (∃ k, ((k : Int), lw) ∈ ([(100, lw)] : List Entry)) ∧
    lw.type ∈ MANDATED_FULL_EXECUTION_ORDERS ∧
    (lw.price, lw) ∈ (MarketOrder.execute_buy mo3 ⟨[], [(100, lw)]⟩).2.sell :=
  claim_C6_mandated_preserved.2.1 mo3 ⟨[], [(100, lw)]⟩ lw (by
    simp [consumeLoopB_mandated, consumeLoopB_stop, heappop_one,
      MANDATED_FULL_EXECUTION_ORDERS, lw, mo3])

/-! ## Positivity of resting quantities (C8) -/

theorem consumeLoopA_pos (pk : Order → Int) (gate : Order → Bool) :
    ∀ (n : Nat) (heap : List Entry) (remaining : Nat) (total : Int)
      (hist fullex : List Order),
      heap.length + remaining ≤ n →
      (∀ e ∈ heap, 0 < e.2.quantity) →
      (∀ o ∈ hist, 0 < o.quantity) →
      (∀ o ∈ fullex, 0 < o.quantity) →
      (∀ e ∈ (consumeLoopA pk gate heap remaining total hist fullex).heap,
          0 < e.2.quantity) ∧
      (∀ o ∈ (consumeLoopA pk gate heap remaining total hist fullex).history,
          0 < o.quantity) ∧
      (∀ o ∈ (consumeLoopA pk gate heap remaining total hist fullex).fullex,
          0 < o.quantity) := by
  intro n
  induction n with
  | zero =>
    intro heap remaining total hist fullex hn hheap hhist hfx
    rw [consumeLoopA_stop _ _ _ _ _ _ _ (Or.inr (by omega))]
    exact ⟨hheap, hhist, hfx⟩
  | succ n ih =>
    intro heap remaining total hist fullex hn hheap hhist hfx
    by_cases hne : heap.isEmpty = true
    · rw [consumeLoopA_stop _ _ _ _ _ _ _ (Or.inl hne)]
      exact ⟨hheap, hhist, hfx⟩
    · have hne' : heap.isEmpty = false := by simpa using hne
      have hnil : heap ≠ [] := by
        cases heap
        · simp at hne'
        · simp
      rcases Nat.eq_zero_or_pos remaining with hz | hrem
      · rw [consumeLoopA_stop _ _ _ _ _ _ _ (Or.inr hz)]
        exact ⟨hheap, hhist, hfx⟩
      · have hl := heappop_length heap hnil
        have htop : 0 < (heappop heap).1.2.quantity :=
          hheap _ (heappop_fst_mem heap hnil)
        have hheap2 : ∀ e ∈ (heappop heap).2, 0 < e.2.quantity :=
          fun e he => hheap e (heappop_snd_subset heap hnil he)
        by_cases hg : gate (heappop heap).1.2 = true
        · rw [consumeLoopA_gate _ _ _ _ _ _ _ hne' hrem hg]
          refine ⟨hheap2, ?_, hfx⟩
          intro o ho
          rcases List.mem_append.mp ho with ho | ho
          · exact hhist o ho
          · have : o = (heappop heap).1.2 := by simpa using ho
            rw [this]
            exact htop
        · have hg' : gate (heappop heap).1.2 = false := by simpa using hg
          by_cases hm : (heappop heap).1.2.type ∈ MANDATED_FULL_EXECUTION_ORDERS ∧
              remaining < (heappop heap).1.2.quantity
          · rw [consumeLoopA_mandated _ _ _ _ _ _ _ hne' hrem hg' hm.1 hm.2]
            refine ih _ _ _ _ _ (by omega) hheap2 hhist ?_
            intro o ho
            rcases List.mem_append.mp ho with ho | ho
            · exact hfx o ho
            · have : o = (heappop heap).1.2 := by simpa using ho
              rw [this]
              exact htop
          · by_cases hq : remaining < (heappop heap).1.2.quantity
            · have hm' : (heappop heap).1.2.type ∉ MANDATED_FULL_EXECUTION_ORDERS :=
                fun hmem => hm ⟨hmem, hq⟩
              rw [consumeLoopA_residue _ _ _ _ _ _ _ hne' hrem hg' hm' hq]
              have hpos' : 0 < (heappop heap).1.2.quantity - remaining := by omega
              refine ih _ _ _ _ _ ?_ ?_ ?_ hfx
              · rw [heappush_length]
                omega
              · intro e he
                rcases (mem_heappush _ _).mp he with he | he
                · rw [he]
                  exact hpos'
                · exact hheap2 e he
              · intro o ho
                rcases List.mem_append.mp ho with ho | ho
                · exact hhist o ho
                · have : o = { (heappop heap).1.2 with
                      quantity := (heappop heap).1.2.quantity - remaining } := by
                    simpa using ho
                  rw [this]
                  exact hpos'
            · rw [consumeLoopA_consume _ _ _ _ _ _ _ hne' hrem hg' (by omega)]
              refine ih _ _ _ _ _ (by omega) hheap2 ?_ hfx
              intro o ho
              rcases List.mem_append.mp ho with ho | ho
              · exact hhist o ho
              · have : o = (heappop heap).1.2 := by simpa using ho
                rw [this]
                exact htop

/-- C8 amended: the engine performs no duplicate-id validation — a Submit
whose id duplicates a resting order's id is processed like any other and can
leave the same id resting in both collections (see the counterexample) — but
the positivity half of the invariant does hold: if every resting order has
quantity > 0 and the submitted quantity is positive, then after a Limit
execution (the only kind reachable through the engine) every resting order
still has quantity > 0; fully consumed orders are never re-inserted. -/
theorem claim_C8_amended :
    (∀ (o : Order) (bk : OrderBook),
      (∀ e ∈ bk.buy, 0 < e.2.quantity) → (∀ e ∈ bk.sell, 0 < e.2.quantity) →
      0 < o.quantity →
      (∀ e ∈ (LimitOrder.execute_buy o bk).2.buy, 0 < e.2.quantity) ∧
      (∀ e ∈ (LimitOrder.execute_buy o bk).2.sell, 0 < e.2.quantity)) ∧
    (∀ (o : Order) (bk : OrderBook),
      (∀ e ∈ bk.buy, 0 < e.2.quantity) → (∀ e ∈ bk.sell, 0 < e.2.quantity) →
      0 < o.quantity →
      (∀ e ∈ (LimitOrder.execute_sell o bk).2.buy, 0 < e.2.quantity) ∧
      (∀ e ∈ (LimitOrder.execute_sell o bk).2.sell, 0 < e.2.quantity)) := by
  constructor
  · intro o bk hbuy hsell hq
    have hloop := consumeLoopA_pos (fun e => e.price)
      (fun t => decide (o.price < t.price)) (bk.sell.length + o.quantity)
      bk.sell o.quantity 0 [] [] (le_refl _) hsell (by simp) (by simp)
    rw [LimitOrder.execute_buy]
    try dsimp only
    split
    · constructor
      · intro e he
        rcases (mem_heappush _ _).mp he with he | he
        · rw [he]
          exact hq
        · exact hbuy e he
      · intro e he
        rcases (mem_pushAllSell_iff _ _).mp he with he | ⟨x, hx, hxe⟩
        · rcases (mem_pushAllSell_iff _ _).mp he with he | ⟨x, hx, hxe⟩
          · exact hloop.1 e he
          · rw [← hxe]
            exact hloop.2.1 x (List.mem_reverse.mp hx)
        · rw [← hxe]
          exact hloop.2.2 x hx
    · constructor
      · exact hbuy
      · intro e he
        rcases (mem_pushAllSell_iff _ _).mp he with he | ⟨x, hx, hxe⟩
        · exact hloop.1 e he
        · rw [← hxe]
          exact hloop.2.2 x hx
  · intro o bk hbuy hsell hq
    have hloop := consumeLoopA_pos (fun e => -e.price)
      (fun t => decide (t.price < o.price)) (bk.buy.length + o.quantity)
      bk.buy o.quantity 0 [] [] (le_refl _) hbuy (by simp) (by simp)
    rw [LimitOrder.execute_sell]
    try dsimp only
    split
    · constructor
      · intro e he
        rcases (mem_pushAllBuy_iff _ _).mp he with he | ⟨x, hx, hxe⟩
        · rcases (mem_pushAllBuy_iff _ _).mp he with he | ⟨x, hx, hxe⟩
          · exact hloop.1 e he
          · rw [← hxe]
            exact hloop.2.1 x (List.mem_reverse.mp hx)
        · rw [← hxe]
          exact hloop.2.2 x hx
      · intro e he
        rcases (mem_heappush _ _).mp he with he | he
        · rw [he]
          exact hq
        · exact hsell e he
    · constructor
      · intro e he
        rcases (mem_pushAllBuy_iff _ _).mp he with he | ⟨x, hx, hxe⟩
        · exact hloop.1 e he
        · rw [← hxe]
          exact hloop.2.2 x hx
      · exact hsell

theorem claim_C8_amended_witness : 0 < ((-100 : Int), o1).2.quantity :=
  (claim_C8_amended.1 o1 ⟨[], []⟩ (by simp) (by simp) (by decide)).1
    (-100, o1)
    (by rw [show (LimitOrder.execute_buy o1 ⟨[], []⟩).2.buy = [(-100, o1)] from by
          simp [LimitOrder.execute_buy, consumeLoopA_stop, heappush_nil, pushAllSell, o1]]
        simp)

/-! ## GTC partial fills (C9) -/

/-- The consume loop of `GTCOrder._execute_sell_order` (order.py lines
681–703), as invoked by `GTCOrder.execute_sell`. -/
def gtcSellLoop (o : Order) (bk : OrderBook) : LoopResB :=
  consumeLoopC (fun x => -x.price) (fun t => decide (t.price < o.price))
    bk.buy o.quantity 0 []

/-- GoodTillCancel sell `id5`, quantity 10, price 100 (spec scenario 6). -/
def o5 : Order := ⟨"SUB", "id5", "GTC", "S", 10, 100⟩

/-- A resting Limit buy, quantity 4, price 100 (spec scenario 6's buy side). -/
def lo4 : Order := ⟨"SUB", "id6", "LO", "B", 4, 100⟩

/-- C9: when a GoodTillCancel sell fills only partially (the loop ends with a
positive remainder), all consumption performed during the loop is kept — the
realized notional is returned unchanged and the consumed buy side is exactly
the loop's final heap plus the restored set-asides — and the incoming order
rests on the sell side at its limit price with its quantity set to the
remainder.  In particular, GTC Sell `id5` 10 @ 100 against a buy side holding
one resting order 4 @ 100 returns 400 and rests quantity 6 at price 100. -/
theorem claim_C9_gtc_rest :
    (∀ (o : Order) (bk : OrderBook),
      0 < (gtcSellLoop o bk).remaining →
      (GTCOrder.execute_sell o bk).1 = (gtcSellLoop o bk).total_sale ∧
      (GTCOrder.execute_sell o bk).2.buy =
        pushAllBuy (gtcSellLoop o bk).heap (gtcSellLoop o bk).fullex ∧
      (GTCOrder.execute_sell o bk).2.sell.Perm
        ((o.price, { o with quantity := (gtcSellLoop o bk).remaining }) :: bk.sell)) ∧
    GTCOrder.execute_sell o5 ⟨[(-100, lo4)], []⟩ =
      (400, ⟨[], [(100, ⟨"SUB", "id5", "GTC", "S", 6, 100⟩)]⟩) := by
  constructor
  · intro o bk h
    simp only [gtcSellLoop] at h
    rw [GTCOrder.execute_sell]
    try dsimp only
    rw [if_pos h]
    exact ⟨rfl, rfl, heappush_perm _ _⟩
  · have h0 : gtcSellLoop o5 ⟨[(-100, lo4)], []⟩ = ⟨[], 6, 400, []⟩ := by
      simp [gtcSellLoop, consumeLoopC_consume, consumeLoopC_stop, heappop_one,
        MANDATED_FULL_EXECUTION_ORDERS, o5, lo4]
    have h1 : GTCOrder.execute_sell o5 ⟨[(-100, lo4)], []⟩ =
        (400, ⟨[], [(100, ⟨"SUB", "id5", "GTC", "S", 6, 100⟩)]⟩) := by
      rw [GTCOrder.execute_sell]
      try dsimp only
      rw [show (consumeLoopC (fun x => -x.price)
          (fun t => decide (t.price < o5.price))
          (OrderBook.mk [(-100, lo4)] []).buy o5.quantity 0 []) =
          (⟨[], 6, 400, []⟩ : LoopResB) from h0]
      norm_num [heappush_nil, pushAllBuy, o5]
    exact h1

theorem claim_C9_gtc_rest_witness :
    0 < (gtcSellLoop o5 ⟨[(-100, lo4)], []⟩).remaining ∧
    (GTCOrder.execute_sell o5 ⟨[(-100, lo4)], []⟩).1 =
      (gtcSellLoop o5 ⟨[(-100, lo4)], []⟩).total_sale ∧
    (GTCOrder.execute_sell o5 ⟨[(-100, lo4)], []⟩).2.sell.Perm
      ((o5.price, { o5 with quantity := (gtcSellLoop o5 ⟨[(-100, lo4)], []⟩).remaining }) ::
        ([] : List Entry)) := by
  have h0 : gtcSellLoop o5 ⟨[(-100, lo4)], []⟩ = ⟨[], 6, 400, []⟩ := by
    simp [gtcSellLoop, consumeLoopC_consume, consumeLoopC_stop, heappop_one,
      MANDATED_FULL_EXECUTION_ORDERS, o5, lo4]
  have h := claim_C9_gtc_rest.1 o5 ⟨[(-100, lo4)], []⟩ (by rw [h0]; decide)
  exact ⟨by rw [h0]; decide, h.1, h.2.2⟩

/-! ## Termination of the matching loops (C10) -/

/-- Fuel-indexed variant of `consumeLoopA` (one unit of fuel per loop
iteration); `none` models exhausting the iteration budget.  Used to state
termination: a budget of `heap.length + remaining` iterations always
suffices, because every iteration either permanently removes one opposing
entry from the heap (full consumption or mandated-full-execution set-aside),
or strictly decreases the remainder (partial consumption, which pops and
re-pushes one entry), or stops the loop (price gate). -/
def consumeLoopAF (pk : Order → Int) (gate : Order → Bool) :
    Nat → List Entry → Nat → Int → List Order → List Order → Option LoopResA
  | 0, _, _, _, _, _ => none
  | fuel + 1, heap, remaining, total, hist, fullex =>
    if heap.isEmpty = false ∧ 0 < remaining then
      let p := heappop heap
      let top := p.1.2
      if gate top then some ⟨p.2, remaining, total, hist ++ [top], fullex⟩
      else if top.type ∈ MANDATED_FULL_EXECUTION_ORDERS ∧ remaining < top.quantity then
        consumeLoopAF pk gate fuel p.2 remaining total hist (fullex ++ [top])
      else if remaining < top.quantity then
        let top' := { top with quantity := top.quantity - remaining }
        consumeLoopAF pk gate fuel (heappush p.2 (pk top', top'))
          (remaining - min remaining top'.quantity)
          (total + (remaining : Int) * top.price) (hist ++ [top']) fullex
      else
        consumeLoopAF pk gate fuel p.2 (remaining - min remaining top.quantity)
          (total + (top.quantity : Int) * top.price) (hist ++ [top]) fullex
    else some ⟨heap, remaining, total, hist, fullex⟩

/-- Fuel-indexed variant of `consumeLoopB`. -/
def consumeLoopBF (pk : Order → Int) :
    Nat → List Entry → Nat → Int → List Order → Option LoopResB
  | 0, _, _, _, _ => none
  | fuel + 1, heap, remaining, total, fullex =>
    if heap.isEmpty = false ∧ 0 < remaining then
      let p := heappop heap
      let top := p.1.2
      if top.type ∈ MANDATED_FULL_EXECUTION_ORDERS ∧ remaining < top.quantity then
        consumeLoopBF pk fuel p.2 remaining total (fullex ++ [top])
      else if remaining < top.quantity then
        let top' := { top with quantity := top.quantity - remaining }
        consumeLoopBF pk fuel (heappush p.2 (pk top', top'))
          (remaining - min remaining top'.quantity)
          (total + (remaining : Int) * top.price) fullex
      else
        consumeLoopBF pk fuel p.2 (remaining - min remaining top.quantity)
          (total + (top.quantity : Int) * top.price) fullex
    else some ⟨heap, remaining, total, fullex⟩

/-- Fuel-indexed variant of `consumeLoopC`. -/
def consumeLoopCF (pk : Order → Int) (gate : Order → Bool) :
    Nat → List Entry → Nat → Int → List Order → Option LoopResB
  | 0, _, _, _, _ => none
  | fuel + 1, heap, remaining, total, fullex =>
    if heap.isEmpty = false ∧ 0 < remaining then
      let p := heappop heap
      let top := p.1.2
      if gate top then some ⟨heappush p.2 (pk top, top), remaining, total, fullex⟩
      else if top.type ∈ MANDATED_FULL_EXECUTION_ORDERS ∧ remaining < top.quantity then
        consumeLoopCF pk gate fuel p.2 remaining total (fullex ++ [top])
      else if remaining < top.quantity then
        let top' := { top with quantity := top.quantity - remaining }
        consumeLoopCF pk gate fuel (heappush p.2 (pk top', top'))
          (remaining - min remaining top'.quantity)
          (total + (remaining : Int) * top.price) fullex
      else
        consumeLoopCF pk gate fuel p.2 (remaining - min remaining top.quantity)
          (total + (top.quantity : Int) * top.price) fullex
    else some ⟨heap, remaining, total, fullex⟩

theorem consumeLoopAF_adequate (pk : Order → Int) (gate : Order → Bool) :
    ∀ (fuel : Nat) (heap : List Entry) (remaining : Nat) (total : Int)
      (hist fullex : List Order),
      heap.length + remaining < fuel →
      consumeLoopAF pk gate fuel heap remaining total hist fullex =
        some (consumeLoopA pk gate heap remaining total hist fullex) := by
  intro fuel
  induction fuel with
  | zero =>
    intro heap remaining total hist fullex hf
    exact absurd hf (Nat.not_lt_zero _)
  | succ fuel ih =>
    intro heap remaining total hist fullex hf
    rw [consumeLoopAF]
    by_cases hne : heap.isEmpty = true
    · rw [if_neg (by simp [hne]), consumeLoopA_stop _ _ _ _ _ _ _ (Or.inl hne)]
    · have hne' : heap.isEmpty = false := by simpa using hne
      have hnil : heap ≠ [] := by
        cases heap
        · simp at hne'
        · simp
      rcases Nat.eq_zero_or_pos remaining with hz | hrem
      · rw [if_neg (by omega), consumeLoopA_stop _ _ _ _ _ _ _ (Or.inr hz)]
      · have hl := heappop_length heap hnil
        rw [if_pos ⟨hne', hrem⟩]
        dsimp only
        by_cases hg : gate (heappop heap).1.2 = true
        · rw [if_pos hg, consumeLoopA_gate _ _ _ _ _ _ _ hne' hrem hg]
        · have hg' : gate (heappop heap).1.2 = false := by simpa using hg
          rw [if_neg (by simp [hg'])]
          by_cases hm : (heappop heap).1.2.type ∈ MANDATED_FULL_EXECUTION_ORDERS ∧
              remaining < (heappop heap).1.2.quantity
          · rw [if_pos hm, consumeLoopA_mandated _ _ _ _ _ _ _ hne' hrem hg' hm.1 hm.2]
            exact ih _ _ _ _ _ (by omega)
          · rw [if_neg hm]
            by_cases hq : remaining < (heappop heap).1.2.quantity
            · have hm' : (heappop heap).1.2.type ∉ MANDATED_FULL_EXECUTION_ORDERS :=
                fun hmem => hm ⟨hmem, hq⟩
              rw [if_pos hq, consumeLoopA_residue _ _ _ _ _ _ _ hne' hrem hg' hm' hq]
              refine ih _ _ _ _ _ ?_
              rw [heappush_length]
              omega
            · rw [if_neg hq, consumeLoopA_consume _ _ _ _ _ _ _ hne' hrem hg' (by omega)]
              exact ih _ _ _ _ _ (by omega)

theorem consumeLoopBF_adequate (pk : Order → Int) :
    ∀ (fuel : Nat) (heap : List Entry) (remaining : Nat) (total : Int)
      (fullex : List Order),
      heap.length + remaining < fuel →
      consumeLoopBF pk fuel heap remaining total fullex =
        some (consumeLoopB pk heap remaining total fullex) := by
  intro fuel
  induction fuel with
  | zero =>
    intro heap remaining total fullex hf
    exact absurd hf (Nat.not_lt_zero _)
  | succ fuel ih =>
    intro heap remaining total fullex hf
    rw [consumeLoopBF]
    by_cases hne : heap.isEmpty = true
    · rw [if_neg (by simp [hne]), consumeLoopB_stop _ _ _ _ _ (Or.inl hne)]
    · have hne' : heap.isEmpty = false := by simpa using hne
      have hnil : heap ≠ [] := by
        cases heap
        · simp at hne'
        · simp
      rcases Nat.eq_zero_or_pos remaining with hz | hrem
      · rw [if_neg (by omega), consumeLoopB_stop _ _ _ _ _ (Or.inr hz)]
      · have hl := heappop_length heap hnil
        rw [if_pos ⟨hne', hrem⟩]
        dsimp only
        by_cases hm : (heappop heap).1.2.type ∈ MANDATED_FULL_EXECUTION_ORDERS ∧
            remaining < (heappop heap).1.2.quantity
        · rw [if_pos hm, consumeLoopB_mandated _ _ _ _ _ hne' hrem hm.1 hm.2]
          exact ih _ _ _ _ (by omega)
        · rw [if_neg hm]
          by_cases hq : remaining < (heappop heap).1.2.quantity
          · have hm' : (heappop heap).1.2.type ∉ MANDATED_FULL_EXECUTION_ORDERS :=
              fun hmem => hm ⟨hmem, hq⟩
            rw [if_pos hq, consumeLoopB_residue _ _ _ _ _ hne' hrem hm' hq]
            refine ih _ _ _ _ ?_
            rw [heappush_length]
            omega
          · rw [if_neg hq, consumeLoopB_consume _ _ _ _ _ hne' hrem (by omega)]
            exact ih _ _ _ _ (by omega)

theorem consumeLoopCF_adequate (pk : Order → Int) (gate : Order → Bool) :
    ∀ (fuel : Nat) (heap : List Entry) (remaining : Nat) (total : Int)
      (fullex : List Order),
      heap.length + remaining < fuel →
      consumeLoopCF pk gate fuel heap remaining total fullex =
        some (consumeLoopC pk gate heap remaining total fullex) := by
  intro fuel
  induction fuel with
  | zero =>
    intro heap remaining total fullex hf
    exact absurd hf (Nat.not_lt_zero _)
  | succ fuel ih =>
    intro heap remaining total fullex hf
    rw [consumeLoopCF]
    by_cases hne : heap.isEmpty = true
    · rw [if_neg (by simp [hne]), consumeLoopC_stop _ _ _ _ _ _ (Or.inl hne)]
    · have hne' : heap.isEmpty = false := by simpa using hne
      have hnil : heap ≠ [] := by
        cases heap
        · simp at hne'
        · simp
      rcases Nat.eq_zero_or_pos remaining with hz | hrem
      · rw [if_neg (by omega), consumeLoopC_stop _ _ _ _ _ _ (Or.inr hz)]
      · have hl := heappop_length heap hnil
        rw [if_pos ⟨hne', hrem⟩]
        dsimp only
        by_cases hg : gate (heappop heap).1.2 = true
        · rw [if_pos hg, consumeLoopC_gate _ _ _ _ _ _ hne' hrem hg]
        · have hg' : gate (heappop heap).1.2 = false := by simpa using hg
          rw [if_neg (by simp [hg'])]
          by_cases hm : (heappop heap).1.2.type ∈ MANDATED_FULL_EXECUTION_ORDERS ∧
              remaining < (heappop heap).1.2.quantity
          · rw [if_pos hm, consumeLoopC_mandated _ _ _ _ _ _ hne' hrem hg' hm.1 hm.2]
            exact ih _ _ _ _ (by omega)
          · rw [if_neg hm]
            by_cases hq : remaining < (heappop heap).1.2.quantity
            · have hm' : (heappop heap).1.2.type ∉ MANDATED_FULL_EXECUTION_ORDERS :=
                fun hmem => hm ⟨hmem, hq⟩
              rw [if_pos hq, consumeLoopC_residue _ _ _ _ _ _ hne' hrem hg' hm' hq]
              refine ih _ _ _ _ ?_
              rw [heappush_length]
              omega
            · rw [if_neg hq, consumeLoopC_consume _ _ _ _ _ _ hne' hrem hg' (by omega)]
              exact ih _ _ _ _ (by omega)

/-- C10: every matching loop terminates, with an explicit bound: running the
fuel-indexed loop with any budget larger than
`heap.length + remaining` completes (returns `some` of the total loop's
result) — each iteration either permanently removes one opposing entry, or
strictly decreases the remainder, or stops at the price gate.  Stated for all
three loop shapes: `consumeLoopA` (Limit/FillOrKill), `consumeLoopB`
(Market), `consumeLoopC` (ImmediateOrCancel/GoodTillCancel). -/
theorem claim_C10_termination :
    (∀ (pk : Order → Int) (gate : Order → Bool) (fuel : Nat) (heap : List Entry)
      (remaining : Nat) (total : Int) (hist fullex : List Order),
      heap.length + remaining < fuel →
      consumeLoopAF pk gate fuel heap remaining total hist fullex =
        some (consumeLoopA pk gate heap remaining total hist fullex)) ∧
    (∀ (pk : Order → Int) (fuel : Nat) (heap : List Entry)
      (remaining : Nat) (total : Int) (fullex : List Order),
      heap.length + remaining < fuel →
      consumeLoopBF pk fuel heap remaining total fullex =
        some (consumeLoopB pk heap remaining total fullex)) ∧
    (∀ (pk : Order → Int) (gate : Order → Bool) (fuel : Nat) (heap : List Entry)
      (remaining : Nat) (total : Int) (fullex : List Order),
      heap.length + remaining < fuel →
      consumeLoopCF pk gate fuel heap remaining total fullex =
        some (consumeLoopC pk gate heap remaining total fullex)) :=
  ⟨fun pk gate => consumeLoopAF_adequate pk gate,
   fun pk => consumeLoopBF_adequate pk,
   fun pk gate => consumeLoopCF_adequate pk gate⟩

theorem claim_C10_termination_witness :
    consumeLoopBF (fun e => e.price) 5 [(100, lw)] 3 0 [] =
      some (consumeLoopB (fun e => e.price) [(100, lw)] 3 0 []) :=
  claim_C10_termination.2.1 (fun e => e.price) 5 [(100, lw)] 3 0 [] (by simp)

end It5001
